import Mathlib

/-!
Verification of the Query Engine of `backend/services/query_engine.py`.

The Python module is shallowly embedded: Python dicts become insertion-ordered
association lists (`PyDict`), Python sets become insertion-ordered duplicate-free
lists (iteration order of a Python set is unspecified; we fix insertion order as
the canonical model, and every order-sensitive theorem below is stated so that it
does not depend on this choice), strings become `String`/`List Char` with ASCII
case conventions, wall-clock reads (`time.time()`) become an explicit clock oracle
`Nat → ℚ` indexed by program point, and the external collaborators (LLM provider,
embedding provider, vector index) become function-valued oracles that may fail
(`Except`), mirroring the `try/except` structure of the source.
-/

set_option linter.unusedVariables false
set_option maxRecDepth 100000

namespace QE

/-! ### Python dictionaries as insertion-ordered association lists -/

/-- Model of a Python `dict` with string keys: an insertion-ordered association
list with unique keys.  Updating an existing key keeps its position (CPython
semantics); inserting a new key appends. -/
abbrev PyDict (α : Type) := List (String × α)

def dlookup {α : Type} (d : PyDict α) (k : String) : Option α :=
  (d.find? (fun kv => kv.1 == k)).map (·.2)

def dmem {α : Type} (d : PyDict α) (k : String) : Bool :=
  (dlookup d k).isSome

def dinsert {α : Type} : PyDict α → String → α → PyDict α
  | [], k, v => [(k, v)]
  | kv :: d, k, v => if kv.1 == k then (k, v) :: d else kv :: dinsert d k v

def dsetdefault {α : Type} (d : PyDict α) (k : String) (v : α) : PyDict α :=
  if dmem d k then d else d ++ [(k, v)]

/-- Model of Python `dict.update`: entries of `e` are folded into `d` in order. -/
def dupdate {α : Type} (d e : PyDict α) : PyDict α :=
  e.foldl (fun acc kv => dinsert acc kv.1 kv.2) d

def dkeys {α : Type} (d : PyDict α) : List String := d.map (·.1)

def dgetD {α : Type} (d : PyDict α) (k : String) (v : α) : α :=
  (dlookup d k).getD v

/-- Model of a Python `set` of strings: insertion-ordered duplicate-free list. -/
def oadd (s : List String) (x : String) : List String :=
  if x ∈ s then s else s ++ [x]

/-! ### Characters and strings (ASCII model of Python semantics) -/

def isDigitC (c : Char) : Bool := 48 ≤ c.toNat && c.toNat ≤ 57

def isAlphaC (c : Char) : Bool :=
  (65 ≤ c.toNat && c.toNat ≤ 90) || (97 ≤ c.toNat && c.toNat ≤ 122)

def isLowerAlphaC (c : Char) : Bool := 97 ≤ c.toNat && c.toNat ≤ 122

/-- Python regex `\w` (ASCII): letters, digits, underscore. -/
def isWordC (c : Char) : Bool := isAlphaC c || isDigitC c || c.toNat == 95

/-- Python `str.strip` whitespace class (ASCII). -/
def isSpaceC (c : Char) : Bool :=
  c.toNat == 32 || c.toNat == 9 || c.toNat == 10 || c.toNat == 13 ||
    c.toNat == 11 || c.toNat == 12

/-- ASCII lower-casing (Python `str.lower` restricted to the modeled ASCII
range). -/
def lowerC (c : Char) : Char :=
  if 65 ≤ c.toNat && c.toNat ≤ 90 then Char.ofNat (c.toNat + 32) else c

/-- ASCII upper-casing. -/
def upperC (c : Char) : Char :=
  if 97 ≤ c.toNat && c.toNat ≤ 122 then Char.ofNat (c.toNat - 32) else c

def toCs (s : String) : List Char := s.data

def ofCs (cs : List Char) : String := ⟨cs⟩

def pyLower (s : String) : String := ofCs ((toCs s).map lowerC)

def pyUpper (s : String) : String := ofCs ((toCs s).map upperC)

def stripCs (cs : List Char) : List Char :=
  ((cs.dropWhile isSpaceC).reverse.dropWhile isSpaceC).reverse

def pyStrip (s : String) : String := ofCs (stripCs (toCs s))

/-- Python `str.lstrip(chars)`. -/
def lstripSet (chars : List Char) (cs : List Char) : List Char :=
  cs.dropWhile (fun c => chars.contains c)

/-- Python `str.rstrip(chars)`. -/
def rstripSet (chars : List Char) (cs : List Char) : List Char :=
  (cs.reverse.dropWhile (fun c => chars.contains c)).reverse

/-- Python `str.replace(a, b)` for single characters. -/
def replaceC (a b : Char) (s : String) : String :=
  ofCs ((toCs s).map (fun c => if c == a then b else c))

/-- Python `str.replace(a, "")` for a single character. -/
def removeC (a : Char) (s : String) : String :=
  ofCs ((toCs s).filter (fun c => c != a))

def isPrefixCs : List Char → List Char → Bool
  | [], _ => true
  | _ :: _, [] => false
  | a :: as, b :: bs => a == b && isPrefixCs as bs

/-- Python `s.startswith(p)`. -/
def startsWithPy (p s : String) : Bool := isPrefixCs (toCs p) (toCs s)

/-- First index at which `needle` occurs in `hay`, scanning left to right. -/
def findSubAux (needle : List Char) : List Char → Nat → Option Nat
  | [], i => if needle.isEmpty then some i else none
  | c :: rest, i =>
    if isPrefixCs needle (c :: rest) then some i else findSubAux needle rest (i + 1)

/-- Python `needle in hay` on strings. -/
def containsSub (hay needle : List Char) : Bool := (findSubAux needle hay 0).isSome

def inStr (needle hay : String) : Bool := containsSub (toCs hay) (toCs needle)

/-- Python `hay.find(needle)`: first index or `-1`. -/
def pyFind (hay needle : String) : Int :=
  match findSubAux (toCs needle) (toCs hay) 0 with
  | some i => (i : Int)
  | none => -1

/-- Python `hay.count(needle)` for nonempty `needle`: non-overlapping
occurrences; the fuel (initially the haystack length, consumed at least one
character per step) makes the recursion structural. -/
def countSubAux (needle : List Char) : Nat → List Char → Nat
  | 0, _ => 0
  | _, [] => 0
  | fuel + 1, c :: rest =>
    if isPrefixCs needle (c :: rest) then
      1 + countSubAux needle fuel (rest.drop (needle.length - 1))
    else countSubAux needle fuel rest

/-- Python `hay.count(needle)` (for empty needle Python returns `len + 1`). -/
def pyCount (hay needle : String) : Nat :=
  if (toCs needle).isEmpty then (toCs hay).length + 1
  else countSubAux (toCs needle) (toCs hay).length (toCs hay)

/-- Python slice `s[k:]` with possibly negative `k`. -/
def pySliceFrom (s : String) (k : Int) : String :=
  let n : Int := (toCs s).length
  let start : Nat := if k < 0 then (if n + k < 0 then 0 else (n + k).toNat) else k.toNat
  ofCs ((toCs s).drop start)

/-- Python slice `s[:n]`. -/
def pyTakeStr (s : String) (n : Nat) : String := ofCs ((toCs s).take n)

/-- Python slice `xs[-2:]`: the last two elements (or all, if shorter). -/
def lastTwo {α : Type} (xs : List α) : List α := xs.drop (xs.length - 2)

/-! ### Regex models, exactly the patterns used by the source -/

/-- Maximal runs of `\w` characters, left to right (accumulator holds the
current run reversed). -/
def wordRunsAux : List Char → List Char → List (List Char)
  | cur, [] => if cur.isEmpty then [] else [cur.reverse]
  | cur, c :: rest =>
    if isWordC c then wordRunsAux (c :: cur) rest
    else if cur.isEmpty then wordRunsAux [] rest
    else cur.reverse :: wordRunsAux [] rest

def wordRuns (cs : List Char) : List (List Char) := wordRunsAux [] cs

/-- Model of `re.findall(r'\b[a-zA-Z]{3,}\b', s)`: the maximal `\w`-runs that are
pure alphabetic and at least 3 characters long. -/
def alphaWords (cs : List Char) : List (List Char) :=
  (wordRuns cs).filter (fun r => r.all isAlphaC && decide (3 ≤ r.length))

/-- Model of `re.sub(r'\([^)]*\)$', '', s)`: strip one trailing parenthesized
group that contains no `)`. -/
def stripParenCs (cs : List Char) : List Char :=
  match cs.getLast? with
  | some ')' =>
    let body := cs.dropLast
    let post := (body.reverse.takeWhile (fun c => c != ')')).reverse
    match post.findIdx? (fun c => c == '(') with
    | some j => cs.take (body.length - post.length + j)
    | none => cs
  | _ => cs

def stripParenStr (s : String) : String := ofCs (stripParenCs (toCs s))

/-- Separator class `[_:]` of the year-suffix pattern. -/
def isSepC (c : Char) : Bool := c.toNat == 95 || c.toNat == 58

/-- Tail after the four digits of the year pattern: `(\+\w+)?$`. -/
def plusWordTail : List Char → Bool
  | [] => true
  | c :: w => c.toNat == 43 && !w.isEmpty && w.all isWordC

def fourDigitsThen : List Char → Bool
  | a :: b :: c :: d :: rest =>
    isDigitC a && isDigitC b && isDigitC c && isDigitC d && plusWordTail rest
  | _ => false

/-- Whether the whole list matches `[_:]?\d{4}(\+\w+)?$` (anchored both ends). -/
def yearFrom (l : List Char) : Bool :=
  match l with
  | c :: rest => if isSepC c then fourDigitsThen rest else fourDigitsThen l
  | [] => false

/-- Leftmost position whose suffix matches the year pattern. -/
def findYearPosAux : List Char → Nat → Option Nat
  | [], _ => none
  | c :: rest, i => if yearFrom (c :: rest) then some i else findYearPosAux rest (i + 1)

/-- Model of `re.sub(r'[_:]?\d{4}(\+\w+)?$', '', s)`. -/
def stripYearCs (cs : List Char) : List Char :=
  match findYearPosAux cs 0 with
  | some p => cs.take p
  | none => cs

/-- Model of `re.sub(r'[^a-z0-9\-]', '', s)`. -/
def onlyAnH (cs : List Char) : List Char :=
  cs.filter (fun c => isLowerAlphaC c || isDigitC c || c == '-')

/-- Model of `re.sub(r'[^a-z0-9]', '', s)`. -/
def onlyAn (cs : List Char) : List Char :=
  cs.filter (fun c => isLowerAlphaC c || isDigitC c)

/-! ### Data model

Store entities are modeled with total fields: a well-formed store entry carries
every key the engine reads (`.get` defaults of the source are noted where the
total model makes them unreachable). -/

/-- A section record as read by the engine: `section_code`, `title`, `content`,
`page`, `doc_key_prefix`. -/
structure Section where
  secCode : String
  title : String
  content : String
  page : Int
  docKeyPfx : String
deriving DecidableEq, Repr

/-- An object (table/figure) record: `code`, `title`, `description`, `page`,
`doc_id`. -/
structure Obj where
  code : String
  title : String
  description : String
  page : Int
  docId : String
deriving DecidableEq, Repr

/-- A document record; only `key_prefix` and `code` are read by the engine. -/
structure Doc where
  keyPfx : String
  code : String
deriving DecidableEq, Repr

/-- A precedence rule: `supersedes`, `superseded_by`, `note`. -/
structure Prec where
  supersedes : List String
  supersededBy : List String
  note : String
deriving DecidableEq, Repr

/-- A `kv_store` value: either a dict carrying a `value` field or a bare value
(the source goes through `str(val)`). -/
inductive KVVal where
  | vdict (value : String)
  | vstr (s : String)
deriving DecidableEq, Repr

/-- The datastore collections read by the query engine. -/
structure Store where
  sections : PyDict Section
  objects : PyDict Obj
  references : PyDict (List String)
  precedence : PyDict Prec
  kvStore : PyDict KVVal
  documents : PyDict Doc
deriving Repr

/-- Parsed JSON values as returned by the LLM provider's JSON modes. -/
inductive JVal where
  | null
  | bool (b : Bool)
  | num (n : Int)
  | str (s : String)
  | arr (xs : List JVal)
  | obj (kvs : List (String × JVal))

/-- Python truthiness of a parsed JSON value. -/
def JVal.truthy : JVal → Bool
  | .null => false
  | .bool b => b
  | .num n => n != 0
  | .str s => s != ""
  | .arr xs => !xs.isEmpty
  | .obj kvs => !kvs.isEmpty

/-- A conversation message: `role`, `content`, `references` (only `section_code`
and `title` of an embedded reference are ever read). -/
structure MsgRef where
  secCode : String
  title : String
deriving DecidableEq, Repr

structure Msg where
  role : String
  content : String
  references : List MsgRef
deriving DecidableEq, Repr

/-- A vector-index hit; the engine reads only `id` (score and metadata are
returned by the index but never read). -/
structure Hit where
  id : String
deriving DecidableEq, Repr

/-- A chat message forwarded to `generate_chat`. -/
structure ChatMsg where
  role : String
  content : String
deriving DecidableEq, Repr

/-- The LLM provider, as a deterministic oracle.  Each method may fail
(`Except.error`), which models any exception thrown inside the awaited call.
`generateJson` is typed at the collaborator contract for the keyword call site
(a JSON array of strings); `generateJsonFb` models
`generate_json_with_fallback` and returns an arbitrary parsed JSON value. -/
structure LLM (V : Type) where
  generate : String → Except String String
  generateChat : List ChatMsg → String → String → Except String String
  generateJson : String → Except String (List String)
  generateJsonFb : String → Except String JVal
  embedQuery : String → V

/-- The vector index: `search(vector, top_k)` returning ranked hits. -/
structure Pine (V : Type) where
  search : V → Nat → List Hit

/-- The engine instance: collaborators plus store. -/
structure Engine (V : Type) where
  gemini : LLM V
  pinecone : Pine V
  store : Store

/-! ### Reference Resolver (`_code_variants`, `_build_ref_index`,
`_resolve_ref`, `_resolve_ref_simple`, `_collect_missing_docs`) -/

/-- Model of `_code_variants`: normalized variants of a document code.  The
Python function returns `list(variants)` of a set; we model the set as an
insertion-ordered list (iteration order of the Python set is unspecified; no
theorem below depends on the order). -/
def codeVariants (code : String) : List String :=
  let c := pyStrip (pyLower code)
  let base := oadd (oadd [] c) (ofCs (stripYearCs (toCs c)))
  let afterRepl := base.foldl (fun acc v =>
    let acc := oadd acc (replaceC '_' '-' v)
    let acc := oadd acc (replaceC '-' '_' v)
    let acc := oadd acc (replaceC ' ' '_' v)
    let acc := oadd acc (replaceC ' ' '-' v)
    oadd acc (removeC ' ' v)) base
  afterRepl.foldl (fun acc v => oadd acc (ofCs (onlyAnH (toCs v)))) afterRepl

/-- The lowered, stripped code `c` of `_code_variants`. -/
def cvC (code : String) : String := pyStrip (pyLower code)

/-- The `no_year` variant of `_code_variants`. -/
def cvNy (code : String) : String := ofCs (stripYearCs (toCs (cvC code)))

/-- The two-element seed set of `_code_variants` before the replacement loops. -/
def cvBase (code : String) : List String := oadd (oadd [] (cvC code)) (cvNy code)

/-- One iteration of the separator-replacement loop of `_code_variants`. -/
def cvStep1 (acc : List String) (v : String) : List String :=
  oadd (oadd (oadd (oadd (oadd acc (replaceC '_' '-' v)) (replaceC '-' '_' v))
    (replaceC ' ' '_' v)) (replaceC ' ' '-' v)) (removeC ' ' v)

/-- One iteration of the alphanumeric-normalization loop of `_code_variants`. -/
def cvStep2 (acc : List String) (v : String) : List String :=
  oadd acc (ofCs (onlyAnH (toCs v)))

/-- The fuzzy reference index built by `_build_ref_index`: `idx` maps normalized
reference strings to actual store keys, `docPfxMap` maps normalized document
code variants to document key prefixes. -/
structure RefIndex where
  idx : PyDict String
  docPfxMap : PyDict String
deriving Repr

/-- One iteration of the key loop of `_build_ref_index`. -/
def refIndexStep (idx : PyDict String) (key : String) : PyDict String :=
  let idx := dinsert idx key key
  let idx := dinsert idx (replaceC '.' '_' key) key
  let strippedP := stripParenStr key
  if strippedP != key then
    dsetdefault (dsetdefault idx strippedP key) (replaceC '.' '_' strippedP) key
  else idx

def allStoreKeys (st : Store) : List String := dkeys st.sections ++ dkeys st.objects

/-- Model of `_build_ref_index`. -/
def buildRefIndex (st : Store) : RefIndex :=
  let idx := (allStoreKeys st).foldl refIndexStep []
  let dmap := st.documents.foldl (fun m kv =>
    let pfx := kv.2.keyPfx
    if pfx == "" then m
    else (codeVariants kv.2.code).foldl (fun m v => dinsert m v pfx) m) []
  ⟨idx, dmap⟩

/-- Model of `_resolve_ref_simple`. -/
def resolveRefSimple (ri : RefIndex) (key : String) : Option String :=
  match dlookup ri.idx key with
  | some v => some v
  | none =>
  match dlookup ri.idx (replaceC '.' '_' key) with
  | some v => some v
  | none => dlookup ri.idx (stripParenStr key)

/-- The match condition of the cross-document loop: the variant occurs in the
lowered reference, or the canonicalized forms coincide, or the canonicalized
variant occurs in the canonicalized reference. -/
def crossDocCond (refKey cv : String) : Bool :=
  inStr cv (pyLower refKey) || onlyAn (toCs cv) == onlyAn (toCs (pyLower refKey)) ||
    containsSub (onlyAn (toCs (pyLower refKey))) (onlyAn (toCs cv))

/-- The remainder of the reference after the matched variant
(`ref_key[idx + len(code_variant):].lstrip("_:/ ")`). -/
def crossDocRemainder (refKey cv : String) : String :=
  ofCs (lstripSet ['_', ':', '/', ' ']
    (toCs (pySliceFrom refKey (pyFind (pyLower refKey) cv + (toCs cv).length))))

/-- The cross-document arm of `_resolve_ref` (steps after the double-prefix
correction): find the first document-code variant matching the reference and
resolve the remainder against that document's namespace, falling back to the
first section of that document. -/
def resolveCrossDoc (st : Store) (ri : RefIndex) (refKey : String) : Option String :=
  match ri.docPfxMap.find? (fun kv => crossDocCond refKey kv.1) with
  | none => none
  | some (cv, pfx) =>
    match (if crossDocRemainder refKey cv != "" then
        resolveRefSimple ri (pfx ++ "_" ++ crossDocRemainder refKey cv)
      else none) with
    | some v => some v
    | none => (st.sections.find? (fun kv => startsWithPy pfx kv.1)).map (·.1)

/-- The double-prefix correction arm of `_resolve_ref`: a reference that
accidentally repeats the document prefix is retried with one prefix removed. -/
def doubledPfxLookup (ri : RefIndex) (refKey : String) (doc : Doc) : Option String :=
  if startsWithPy (doc.keyPfx ++ "_" ++ doc.keyPfx) refKey then
    dlookup ri.idx (pySliceFrom refKey ((toCs doc.keyPfx).length + 1))
  else none

/-- Model of `_resolve_ref` (with the index already built; laziness is modeled
separately by `resolveSt`). -/
def resolveRef (st : Store) (ri : RefIndex) (refKey : String) : Option String :=
  match dlookup ri.idx refKey with
  | some v => some v
  | none =>
  match dlookup ri.idx (replaceC '.' '_' refKey) with
  | some v => some v
  | none =>
  let strippedP := stripParenStr refKey
  match dlookup ri.idx strippedP with
  | some v => some v
  | none =>
  match dlookup ri.idx (replaceC '.' '_' strippedP) with
  | some v => some v
  | none =>
  match st.documents.findSome? (fun kv => doubledPfxLookup ri refKey kv.2) with
  | some v => some v
  | none => resolveCrossDoc st ri refKey

/-- Model of the lazy index build wrapped around `_resolve_ref`: the index is
built on first use and cached for the engine instance's lifetime. -/
def resolveSt (st : Store) (cache : Option RefIndex) (refKey : String) :
    Option String × RefIndex :=
  let ri := cache.getD (buildRefIndex st)
  (resolveRef st ri refKey, ri)

/-- The character class `[\d\-_.:\s+a-z]` of the document-code pattern. -/
def docCodeClassC (c : Char) : Bool :=
  isDigitC c || c == '-' || c == '_' || c == '.' || c == ':' || isSpaceC c ||
    c == '+' || isLowerAlphaC c

/-- Match `\s*[-_]?\s*[\d][\d\-_.:\s+a-z]*` after an alternation prefix; returns
the number of characters consumed, or `none`. -/
def docCodeAfterPfx (cs : List Char) : Option Nat :=
  let sp1 := cs.takeWhile isSpaceC
  let r1 := cs.drop sp1.length
  let sepLen : Nat := match r1 with
    | c :: _ => if c == '-' || c == '_' then 1 else 0
    | [] => 0
  let r2 := r1.drop sepLen
  let sp2 := r2.takeWhile isSpaceC
  let r3 := r2.drop sp2.length
  match r3 with
  | c :: rest =>
    if isDigitC c then
      some (sp1.length + sepLen + sp2.length + 1 + (rest.takeWhile docCodeClassC).length)
    else none
  | [] => none

/-- Model of `re.match(r'((?:en[v]?|iso|bs)\s*[-_]?\s*[\d][\d\-_.:\s+a-z]*)', s)`
returning the matched text; the alternation backtracks in order
`env`, `en`, `iso`, `bs`. -/
def docCodeMatch (cs : List Char) : Option (List Char) :=
  (["env", "en", "iso", "bs"].findSome? (fun p =>
    let pcs := toCs p
    if isPrefixCs pcs cs then
      (docCodeAfterPfx (cs.drop pcs.length)).map (fun n => pcs.length + n)
    else none)).map cs.take

/-- Ascending lexicographic insertion (model of Python `sorted` on strings;
the order is total, so stability is immaterial). -/
def insSortStr (x : String) : List String → List String
  | [] => [x]
  | y :: ys => if x ≤ y then x :: y :: ys else y :: insSortStr x ys

def sortStrings (l : List String) : List String := l.foldr insSortStr []

/-- Model of `_collect_missing_docs`: unresolved references matching a
document-code pattern, upper-cased, deduplicated and sorted. -/
def collectMissingDocs (st : Store) (ri : RefIndex) (refKeys : List String) :
    List String :=
  let missing := refKeys.foldl (fun acc refKey =>
    if (resolveRef st ri refKey).isSome then acc
    else
      match docCodeMatch (toCs (pyLower refKey)) with
      | some g =>
        oadd acc (pyUpper (ofCs (rstripSet ['_', '-', ':', ' '] (stripCs g))))
      | none => acc) []
  sortStrings missing

/-! ### JSON serialization (`json.dumps(..., indent=1)`) and Python `str()` of
parsed JSON values, as used when building LLM prompts -/

def hexDigit (n : Nat) : Char :=
  if n < 10 then Char.ofNat (48 + n) else Char.ofNat (87 + n)

def hex4 (n : Nat) : List Char :=
  [hexDigit (n / 4096 % 16), hexDigit (n / 256 % 16), hexDigit (n / 16 % 16), hexDigit (n % 16)]

/-- JSON string escaping as `json.dumps` performs it (`ensure_ascii` default;
code points beyond the BMP, which would need surrogate pairs, are out of the
modeled character range). -/
def jsonEscapeChar (c : Char) : List Char :=
  if c == '"' then ['\\', '"']
  else if c == '\\' then ['\\', '\\']
  else if c == '\n' then ['\\', 'n']
  else if c == '\t' then ['\\', 't']
  else if c == '\r' then ['\\', 'r']
  else if c == '\x08' then ['\\', 'b']
  else if c == '\x0c' then ['\\', 'f']
  else if c.toNat < 32 || c.toNat > 127 then '\\' :: 'u' :: hex4 c.toNat
  else [c]

def jsonQuote (s : String) : String :=
  "\"" ++ ofCs ((toCs s).foldr (fun c acc => jsonEscapeChar c ++ acc) []) ++ "\""

def nspaces (n : Nat) : String := ofCs (List.replicate n ' ')

mutual

/-- Model of `json.dumps(v, indent=1)`; `d` is the current item depth. -/
def dumpsJ (d : Nat) : JVal → String
  | .null => "null"
  | .bool true => "true"
  | .bool false => "false"
  | .num n => toString n
  | .str s => jsonQuote s
  | .arr [] => "[]"
  | .arr (x :: xs) => "[\n" ++ dumpsArr d (x :: xs) ++ "\n" ++ nspaces (d - 1) ++ "]"
  | .obj [] => "\x7b\x7d"
  | .obj (kv :: kvs) => "\x7b\n" ++ dumpsObj d (kv :: kvs) ++ "\n" ++ nspaces (d - 1) ++ "\x7d"

def dumpsArr (d : Nat) : List JVal → String
  | [] => ""
  | [x] => nspaces d ++ dumpsJ (d + 1) x
  | x :: y :: xs => nspaces d ++ dumpsJ (d + 1) x ++ ",\n" ++ dumpsArr d (y :: xs)

def dumpsObj (d : Nat) : List (String × JVal) → String
  | [] => ""
  | [kv] => nspaces d ++ jsonQuote kv.1 ++ ": " ++ dumpsJ (d + 1) kv.2
  | kv :: kv2 :: kvs =>
    nspaces d ++ jsonQuote kv.1 ++ ": " ++ dumpsJ (d + 1) kv.2 ++ ",\n" ++ dumpsObj d (kv2 :: kvs)

end

/-- Python `repr` escaping inside string literals (single-quote convention;
Python switches to double quotes when the string contains `'` but no `"`, a
presentation detail outside the modeled range). -/
def pyReprEscChar (c : Char) : List Char :=
  if c == '\\' then ['\\', '\\']
  else if c == '\'' then ['\\', '\'']
  else if c == '\n' then ['\\', 'n']
  else if c == '\r' then ['\\', 'r']
  else if c == '\t' then ['\\', 't']
  else [c]

/-- Python `repr` of a string. -/
def pyReprStr (s : String) : String :=
  "'" ++ ofCs ((toCs s).foldr (fun c acc => pyReprEscChar c ++ acc) []) ++ "'"

mutual

/-- Python `repr` of a parsed JSON value (as used inside containers by `str`). -/
def pyReprJ : JVal → String
  | .null => "None"
  | .bool true => "True"
  | .bool false => "False"
  | .num n => toString n
  | .str s => pyReprStr s
  | .arr xs => "[" ++ pyReprList xs ++ "]"
  | .obj kvs => "\x7b" ++ pyReprObj kvs ++ "\x7d"

def pyReprList : List JVal → String
  | [] => ""
  | [x] => pyReprJ x
  | x :: y :: xs => pyReprJ x ++ ", " ++ pyReprList (y :: xs)

def pyReprObj : List (String × JVal) → String
  | [] => ""
  | [kv] => pyReprStr kv.1 ++ ": " ++ pyReprJ kv.2
  | kv :: kv2 :: kvs => pyReprStr kv.1 ++ ": " ++ pyReprJ kv.2 ++ ", " ++ pyReprObj (kv2 :: kvs)

end

/-- Python `str()` of a parsed JSON value. -/
def pyStr : JVal → String
  | .str s => s
  | v => pyReprJ v

/-- Python `len()` of a parsed JSON value; for `null`/booleans/numbers Python
would raise `TypeError` (the source's contract expects a sized value there), the
model totalizes those cases with 0. -/
def pyLen : JVal → Nat
  | .arr xs => xs.length
  | .obj kvs => kvs.length
  | .str s => (toCs s).length
  | _ => 0

/-! ### Engine constants (`query_engine.py` module level) -/

def MAX_REFERENCE_DEPTH : Nat := 3

def MAX_EXPANSION_ROUNDS : Nat := 5

def RELEVANCE_BATCH_SIZE : Nat := 4

def CONVERSATION_MODEL : String := "google/gemini-3-flash-preview"

def CONVERSATION_CONTEXT_LIMIT : Nat := 10

/-- Model of `_ms_since` together with its `time.time()` read: Python
`int((now - start) * 1000)`; `int()` truncates toward zero, so the value is
the toward-zero integer quotient of `(now - start) * 1000`, computed here
directly on the rationals' components (truncation of `a/b` is `a.tdiv b`,
whether or not the fraction is reduced). -/
def msSince (now start : ℚ) : Int :=
  ((now.num * (start.den : Int) - start.num * (now.den : Int)) * 1000).tdiv
    ((now.den : Int) * (start.den : Int))

/-! ### Conversation classifier and conversational reply -/

def classifyPromptHead : String :=
  "You are classifying the latest user message in a conversation with a construction standards assistant.\n\nClassify into exactly one category:\n- \"query\": The user is asking a NEW technical question that requires searching construction documents. Examples: asking about load factors, concrete densities, design codes, safety factors, structural requirements.\n- \"chat\": Everything else — greetings, thank you, follow-up questions about results already shown in the conversation, asking for clarification of a previous answer, chitchat, or messages that are too vague to search.\n\nConversation:\n"

def classifyPromptTail : String := "\n\nReturn exactly one word: query or chat"

/-- The conversation snippet built by `_classify_conversation_intent`. -/
def convoText (messages : List Msg) : String :=
  let recent := messages.drop (messages.length - CONVERSATION_CONTEXT_LIMIT)
  String.intercalate "\n" (recent.map (fun m =>
    let refNote := if !m.references.isEmpty then " [has document references]" else ""
    pyUpper m.role ++ refNote ++ ": " ++ pyTakeStr m.content 500))

def classifyPromptOf (messages : List Msg) : String :=
  classifyPromptHead ++ convoText messages ++ classifyPromptTail

/-- Model of `_classify_conversation_intent`. -/
def classifyIntent {V : Type} (g : LLM V) (messages : List Msg) : String :=
  match g.generate (classifyPromptOf messages) with
  | .ok r =>
    let res := pyLower (pyStrip r)
    if res == "query" || res == "chat" then res else "query"
  | .error _ => "query"

def chatSystemPrompt : String :=
  "You are a helpful construction standards assistant specializing in Eurocodes and structural engineering design codes. You help engineers find and understand information in their design standards.\n\nThe user is having a conversation with you. Respond naturally and helpfully. If the user is asking about results you previously provided, refer back to them. If the user greets you, greet them back and mention what you can help with. Keep responses concise and professional."

/-- Model of `_conversational_response` (`ref.get("section_code") or
ref.get("title", "ref")`: in the total model the `"ref"` default for a missing
title key is unreachable). -/
def conversationalResponse {V : Type} (g : LLM V) (messages : List Msg) : String :=
  let chatMessages := messages.map (fun m =>
    let content :=
      if !m.references.isEmpty && m.role == "assistant" then
        let refSummary := String.intercalate ", " ((m.references.take 10).map (fun r =>
          if r.secCode != "" then r.secCode else r.title))
        m.content ++ "\n\n[Referenced sections: " ++ refSummary ++ "]"
      else m.content
    ChatMsg.mk m.role content)
  match g.generateChat chatMessages chatSystemPrompt CONVERSATION_MODEL with
  | .ok r => r
  | .error _ => "I'm sorry, I encountered an error. Could you try rephrasing your question?"

/-! ### Keyword extraction, KV expansion, keyword search -/

def keywordsPrompt (queryText : String) : String :=
  "Extract 1-5 search keywords from this construction/engineering query.\nBe conservative — pick the most distinctive terms that would appear in technical standards.\nDo not include common words like \"what\", \"is\", \"the\", \"for\".\n\nQuery: \"" ++ queryText ++ "\"\n\nReturn JSON array of keywords:\n[\"keyword1\", \"keyword2\"]"

def keywordStopwords : List String :=
  ["what", "where", "when", "which", "that", "this", "with",
   "from", "have", "does", "should", "would", "could", "the",
   "for", "are", "how"]

/-- Model of `_extract_keywords`. -/
def extractKeywords {V : Type} (g : LLM V) (queryText : String) : List String :=
  match g.generateJson (keywordsPrompt queryText) with
  | .ok ks => ks
  | .error _ =>
    let words := (alphaWords (toCs (pyLower queryText))).map ofCs
    (words.filter (fun w => !keywordStopwords.contains w)).take 5

/-- Python `list(dict.fromkeys(l))`: deduplicate keeping first occurrences. -/
def dedupF (l : List String) : List String := l.foldl oadd []

/-- Model of `_expand_keywords_with_kv`. -/
def expandKeywordsKV (st : Store) (keywords : List String) : List String :=
  let expanded := keywords.foldl (fun exp kw =>
    let kwL := pyLower kw
    st.kvStore.foldl (fun exp kv =>
      let definition := match kv.2 with
        | .vdict v => pyLower v
        | .vstr s => pyLower s
      if kwL == pyLower kv.1 then
        exp ++ ((alphaWords (toCs definition)).map ofCs).take 3
      else if inStr kwL definition then exp ++ [kv.1]
      else exp) exp) keywords
  dedupF expanded

/-- Stable insertion of a scored id into a descending-by-score list (an element
goes after all elements of greater-or-equal score). -/
def insScoreDesc (x : String × Nat) : List (String × Nat) → List (String × Nat)
  | [] => [x]
  | y :: ys => if x.2 ≤ y.2 then y :: insScoreDesc x ys else x :: y :: ys

/-- Python stable `list.sort(key=lambda x: -x[1])`. -/
def sortScoreDesc (l : List (String × Nat)) : List (String × Nat) :=
  l.foldl (fun acc x => insScoreDesc x acc) []

/-- Model of `_keyword_search`. -/
def keywordSearch (st : Store) (keywords : List String) : List String :=
  let secMatches := st.sections.foldl (fun acc kv =>
    let content := pyLower kv.2.content
    let title := pyLower kv.2.title
    let score := keywords.foldl (fun s kw =>
      let kwL := pyLower kw
      let s := if inStr kwL content then s + pyCount content kwL else s
      if inStr kwL title then s + 5 else s) 0
    if score > 0 then acc ++ [(kv.1, score)] else acc) []
  let allMatches := st.objects.foldl (fun acc kv =>
    let desc := pyLower kv.2.description
    let title := pyLower kv.2.title
    let code := pyLower kv.2.code
    let score := keywords.foldl (fun s kw =>
      let kwL := pyLower kw
      let s := if inStr kwL desc then s + pyCount desc kwL else s
      let s := if inStr kwL title then s + 5 else s
      if inStr kwL code then s + 3 else s) 0
    if score > 0 then acc ++ [(kv.1, score)] else acc) secMatches
  ((sortScoreDesc allMatches).take 20).map (·.1)

/-! ### Highlight-term extraction (`_extract_highlight_terms`) -/

def highlightStopwords : List String :=
  ["what", "where", "when", "which", "that", "this", "with", "from",
   "have", "does", "should", "would", "could", "the", "for", "are",
   "how", "and", "about", "can", "you", "tell", "find", "show", "give"]

def ciPrefixCs : List Char → List Char → Bool
  | [], _ => true
  | _ :: _, [] => false
  | a :: as, b :: bs => lowerC a == lowerC b && ciPrefixCs as bs

/-- Leftmost case-insensitive occurrence of `term` in the haystack at `\b` word
boundaries on both sides, returning the case-preserved matched slice: the model
of `re.compile(r'\b' + re.escape(term) + r'\b', re.IGNORECASE).search(s)`. -/
def wbFindCIAux (term : List Char) : Bool → List Char → Option (List Char)
  | _, [] => none
  | prevW, c :: rest =>
    if !prevW && ciPrefixCs term (c :: rest) &&
        (match (c :: rest).drop term.length with
         | [] => true
         | d :: _ => !isWordC d) then
      some ((c :: rest).take term.length)
    else wbFindCIAux term (isWordC c) rest

def wbFindCI (hay term : List Char) : Option (List Char) := wbFindCIAux term false hay

/-- One attempt of the phrase pattern
`\b[a-zA-Z]{3,}(?:\s+[a-zA-Z]{3,}){1,2}\b` at the current position (which is at
a word boundary); greedy: a third word is preferred.  Returns the matched slice
and the remaining input. -/
def phraseTryFrom (cs : List Char) : Option (List Char × List Char) :=
  let r1 := cs.takeWhile isAlphaC
  if r1.length < 3 then none
  else
    let rest1 := cs.drop r1.length
    let gap1 := rest1.takeWhile isSpaceC
    if gap1.isEmpty then none
    else
      let rest2 := rest1.drop gap1.length
      let r2 := rest2.takeWhile isAlphaC
      if r2.length < 3 then none
      else
        let rest3 := rest2.drop r2.length
        let gap2 := rest3.takeWhile isSpaceC
        let third :=
          if gap2.isEmpty then none
          else
            let rest4 := rest3.drop gap2.length
            let r3 := rest4.takeWhile isAlphaC
            if r3.length < 3 then none
            else
              match rest4.drop r3.length with
              | [] => some (r1 ++ gap1 ++ r2 ++ gap2 ++ r3, rest4.drop r3.length)
              | d :: rest5 => if isWordC d then none
                  else some (r1 ++ gap1 ++ r2 ++ gap2 ++ r3, d :: rest5)
        match third with
        | some m => some m
        | none =>
          match rest3 with
          | [] => some (r1 ++ gap1 ++ r2, [])
          | d :: rest4 => if isWordC d then none else some (r1 ++ gap1 ++ r2, d :: rest4)

/-- Model of `re.findall` for the phrase pattern: scan left to right,
non-overlapping, matches only start at word boundaries. -/
def phraseScan : Nat → Bool → List Char → List (List Char)
  | 0, _, _ => []
  | _, _, [] => []
  | fuel + 1, prevW, c :: rest =>
    if !prevW then
      match phraseTryFrom (c :: rest) with
      | some (m, after) => m :: phraseScan fuel true after
      | none => phraseScan fuel (isWordC c) rest
    else phraseScan fuel (isWordC c) rest

def phraseFindall (cs : List Char) : List (List Char) := phraseScan cs.length false cs

/-- Model of `_extract_highlight_terms`. -/
def extractHighlightTerms (queryText extractText : String) : List String :=
  let queryLower := pyLower queryText
  let extractLower := pyLower extractText
  let queryWords := (alphaWords (toCs queryLower)).map ofCs
  let cands := queryWords.filter (fun w => !highlightStopwords.contains w)
  let highlights := cands.foldl (fun hs term =>
    if inStr term extractLower then
      match wbFindCI (toCs extractText) (toCs term) with
      | some m => hs ++ [ofCs m]
      | none => hs
    else hs) []
  let phrases := (phraseFindall (toCs queryLower)).map ofCs
  let highlights := phrases.foldl (fun hs ph =>
    if inStr ph extractLower && decide (hs.length < 4) then
      match wbFindCI (toCs extractText) (toCs ph) with
      | some m => hs ++ [ofCs m]
      | none => hs
    else hs) highlights
  let uniq := highlights.foldl (fun (acc : List String × List String) h =>
    let hl := pyLower h
    if !acc.1.contains hl && decide (acc.2.length < 4) then
      (acc.1 ++ [hl], acc.2 ++ [h])
    else acc) ([], [])
  uniq.2.take 4

/-! ### Relevance filter (`_check_relevance`, `_check_relevance_batch`) -/

/-- The candidate record built by the engine for relevance checking: the keys
`section_code`/`title`/`content`/`page` of the dicts assembled at
`query_engine.py:224-237`, `271-284` and `325-336` (for an object, `content` is
its description). -/
structure Cand where
  secCode : String
  title : String
  content : String
  page : Int
deriving DecidableEq, Repr

/-- One step of candidate materialization: prefer the section record, fall
back to the object record, silently skip ids found in neither collection. -/
def buildCandStep (st : Store) (cands : PyDict Cand) (sid : String) : PyDict Cand :=
  match dlookup st.sections sid with
  | some sec => dinsert cands sid ⟨sec.secCode, sec.title, sec.content, sec.page⟩
  | none =>
    match dlookup st.objects sid with
    | some obj => dinsert cands sid ⟨obj.code, obj.title, obj.description, obj.page⟩
    | none => cands

/-- The candidate-materialization snippet shared by the three sites above. -/
def buildCandidates (st : Store) (ids : List String) : PyDict Cand :=
  ids.foldl (buildCandStep st) []

def relevancePayload (cands : PyDict Cand) : JVal :=
  .obj (cands.map (fun kv =>
    (kv.1, .obj [("code", .str kv.2.secCode), ("title", .str kv.2.title),
                 ("content", .str kv.2.content)])))

def relevancePrompt (queryText : String) (payload : String) : String :=
  "For each section below, extract ONLY the text that is directly relevant to answering this query.\nInclude contextual information that helps interpret the relevant parts (e.g. table headers, units, conditions).\nIf a section has no relevant information, set its value to null.\n\nQuery: \"" ++ queryText ++ "\"\n\nSections:\n" ++ payload ++ "\n\nReturn JSON object mapping section keys to extracted relevant text (or null):"

/-- The include-all fallback of a failed batch: every candidate, its content
truncated to 500 characters. -/
def relevanceFallback (cands : PyDict Cand) : PyDict JVal :=
  cands.map (fun kv => (kv.1, .str (pyTakeStr kv.2.content 500)))

/-- Model of `_check_relevance_batch`: on a successful LLM call keep the truthy
entries of the returned object (a non-object success would raise at
`.items()` and is caught by the same `except`); on failure fall back to all of
the batch's candidates with content truncated to 500 characters. -/
def checkRelevanceBatch {V : Type} (g : LLM V) (queryText : String)
    (cands : PyDict Cand) : PyDict JVal :=
  match g.generateJsonFb (relevancePrompt queryText (dumpsJ 1 (relevancePayload cands))) with
  | .ok (.obj kvs) => kvs.foldl (fun acc kv => if kv.2.truthy then dinsert acc kv.1 kv.2 else acc) []
  | .ok _ => relevanceFallback cands
  | .error _ => relevanceFallback cands

def chunksAux {α : Type} (n : Nat) : Nat → List α → List (List α)
  | _, [] => []
  | 0, l => [l]
  | fuel + 1, x :: xs => ((x :: xs).take n) :: chunksAux n fuel ((x :: xs).drop n)

/-- Python `[items[i:i+n] for i in range(0, len(items), n)]`. -/
def chunksBy {α : Type} (n : Nat) (l : List α) : List (List α) := chunksAux n l.length l

/-- Model of `_check_relevance`: batch, run, merge (gather returns batch
results in order; merging is by `dict.update`). -/
def checkRelevance {V : Type} (g : LLM V) (queryText : String)
    (cands : PyDict Cand) : PyDict JVal :=
  if cands.isEmpty then []
  else
    let batches := chunksBy RELEVANCE_BATCH_SIZE cands
    if batches.length == 1 then checkRelevanceBatch g queryText (batches.headD [])
    else batches.foldl (fun merged b => dupdate merged (checkRelevanceBatch g queryText b)) []

/-! ### Conflict detection (`_check_conflicts`) -/

def conflictsPrompt (queryText : String) (preview : String) : String :=
  "Review these extracts from construction standards documents. Do any of them conflict with each other?\nConflicts include: contradictory values, incompatible requirements, overlapping scope with different specifications.\n\nDo NOT flag as conflicts:\n- Different values for different materials/conditions (that's expected)\n- General vs specific rules (the specific rule applies)\n- Informative vs normative content\n\nQuery context: \"" ++ queryText ++ "\"\n\nExtracts:\n" ++ preview ++ "\n\nIf conflicts exist, return JSON array:\n[\x7b\"sections\": [\"key1\", \"key2\"], \"description\": \"Description of the conflict\"\x7d]\n\nIf no conflicts, return: []"

/-- Model of `_check_conflicts`: empty list on LLM failure. -/
def checkConflicts {V : Type} (g : LLM V) (queryText : String)
    (extracts : PyDict JVal) : JVal :=
  let preview := JVal.obj (extracts.map (fun kv => (kv.1, .str (pyTakeStr (pyStr kv.2) 500))))
  let prompt := conflictsPrompt queryText (dumpsJ 1 preview)
  match g.generateJsonFb prompt with
  | .ok v => v
  | .error _ => .arr []

/-! ### Precedence lookup (step 9) -/

/-- A precedence note attached to the synthesis input. -/
structure PrecNote where
  key : String
  supersedes : List String
  supersededBy : List String
  note : String
deriving DecidableEq, Repr

/-- Model of step 9: collect precedence rules whose key starts with the doc
prefix of each relevant extract (an extract id absent from `sections` gives
prefix `""`, which every key starts with), then deduplicate by key keeping the
first occurrence. -/
def precedenceNotes (st : Store) (relevant : PyDict JVal) : List PrecNote :=
  let notes := relevant.foldl (fun acc kv =>
    let pfx := ((dlookup st.sections kv.1).map (·.docKeyPfx)).getD ""
    st.precedence.foldl (fun acc p =>
      if startsWithPy pfx p.1 then
        acc ++ [⟨p.1, p.2.supersedes, p.2.supersededBy, p.2.note⟩]
      else acc) acc) []
  (notes.foldl (fun (acc : List String × List PrecNote) p =>
    if acc.1.contains p.key then acc else (acc.1 ++ [p.key], acc.2 ++ [p])) ([], [])).2

/-! ### Answer synthesis (`_synthesize_answer`) -/

/-- The falsy-chained field read `a.get(f) or b`, for string fields. -/
def pyOrStr (a : Option String) (b : String) : String :=
  match a with
  | some s => if s != "" then s else b
  | none => b

def precNoteJ (p : PrecNote) : JVal :=
  .obj [("key", .str p.key), ("supersedes", .arr (p.supersedes.map .str)),
        ("superseded_by", .arr (p.supersededBy.map .str)), ("note", .str p.note)]

def synthesisPromptHead : String :=
  "You are answering a question about construction standards (Eurocodes).\nUse ONLY the provided extracts to answer. Cite every piece of information with its source.\n\nIMPORTANT formatting rules:\n- Keep your answer CONCISE — aim for 300-800 words maximum\n- Use proper markdown with line breaks between elements\n- Use tables with SHORT cell contents (abbreviate long text, max ~50 chars per cell)\n- Each table row MUST be on its own line\n- Citations in format [Section X.Y.Z, Page N] or [Table X.Y, Page N]\n- Include units for all values\n- Note any conditions or exceptions that apply\n- Do NOT repeat raw source text verbatim — summarize and cite instead\n\nIf there are precedence notes, mention which standard takes priority.\nIf there are conflicts, highlight them clearly.\nIf there are unfollowed references, mention them as \"Further references available\".\nIf there are missing documents, note them as \"Referenced but not loaded\" so the user knows.\n\nQuery: \""

/-- The labeled-extract text block built by `_synthesize_answer`. -/
def extractsTextOf (st : Store) (extracts : PyDict JVal) : String :=
  extracts.foldl (fun acc kv =>
    let sec := dlookup st.sections kv.1
    let obj := dlookup st.objects kv.1
    let code := pyOrStr (sec.map (·.secCode)) (((obj.map (·.code))).getD kv.1)
    let objPage : String := match obj with
      | some o => toString o.page
      | none => "?"
    let page := match sec with
      | some s => if s.page != 0 then toString s.page else objPage
      | none => objPage
    let title := pyOrStr (sec.map (·.title)) (((obj.map (·.title))).getD "")
    acc ++ "\n### [" ++ code ++ "] " ++ title ++ " (Page " ++ page ++ ")\n" ++
      pyStr kv.2 ++ "\n") ""

/-- Model of `_synthesize_answer`: on success the answer is truncated at 10000
characters with a marker appended; on failure the raw labeled extracts are
returned. -/
def synthesizeAnswer {V : Type} (g : LLM V) (st : Store) (queryText : String)
    (extracts : PyDict JVal) (precedence : List PrecNote) (conflicts : JVal)
    (unfollowed missingDocs : List String) : String :=
  let extractsText := extractsTextOf st extracts
  let precedenceText :=
    if !precedence.isEmpty then dumpsJ 1 (.arr (precedence.map precNoteJ)) else "None"
  let conflictsText := if conflicts.truthy then dumpsJ 1 conflicts else "None"
  let unfollowedText :=
    if !unfollowed.isEmpty then String.intercalate ", " (unfollowed.take 10) else "None"
  let missingText :=
    if !missingDocs.isEmpty then String.intercalate ", " (missingDocs.take 10) else "None"
  let prompt := synthesisPromptHead ++ queryText ++ "\"\n\nRelevant extracts:\n" ++
    extractsText ++ "\n\nPrecedence notes:\n" ++ precedenceText ++ "\n\nConflicts:\n" ++
    conflictsText ++ "\n\nUnfollowed references:\n" ++ unfollowedText ++
    "\n\nReferenced documents not loaded in system:\n" ++ missingText
  match g.generate prompt with
  | .ok answer =>
    if decide (10000 < (toCs answer).length) then
      pyTakeStr answer 10000 ++ "\n\n*[Answer truncated for length]*"
    else answer
  | .error _ => "Error synthesizing answer. Raw relevant sections:\n" ++ extractsText

/-! ### Step log entries (the dicts appended to `steps_log`) -/

inductive Step where
  | intent (result : String)
  | vectorSearch (hits : Nat) (topIds : List String)
  | keywordSearch (keywords : List String) (expanded : List String) (keywordHits : Nat)
  | relevanceCheck (candidates : Nat) (relevant : Nat)
  | expansionRound (n : Nat) (topK : Nat) (extraChecked : Nat) (extraRelevant : Nat)
  | followRefsDepth (depth : Nat) (checked : Nat) (relevant : Nat)
  | precedenceStep (rules : Nat)
  | conflictsStep (found : Nat)
deriving DecidableEq, Repr

/-! ### Expansion loop (step 5, `query_engine.py:254-300`) -/

/-- The loop state of step 5. -/
structure ExpState where
  vectorHits : List Hit
  topK : Nat
  candidates : PyDict Cand
  relevant : PyDict JVal
  rounds : Nat
  steps : List Step

/-- The ids newly revealed by a wider search: hits not already candidates. -/
def newIdsOf (cands : PyDict Cand) (hits : List Hit) : List String :=
  (hits.map (·.id)).filter (fun i => !dmem cands i)

/-- One iteration of the `while` body of step 5.  The returned flag is false
when a `break` fired; the mutations already performed before the `break`
(`expansion_rounds += 1`, `top_k += 10`) are kept, as in the source. -/
def expBody {V : Type} (E : Engine V) (qv : V) (queryText : String)
    (s : ExpState) : ExpState × Bool :=
  if s.vectorHits.length < s.topK then (s, false)
  else if !((lastTwo s.vectorHits).map (·.id)).any (fun bid => dmem s.relevant bid) then
    (s, false)
  else
    let rounds := s.rounds + 1
    let topK := s.topK + 10
    let extraHits := E.pinecone.search qv topK
    let newIds := newIdsOf s.candidates extraHits
    if newIds.isEmpty then ({ s with rounds := rounds, topK := topK }, false)
    else
      let extraCands := buildCandidates E.store newIds
      if extraCands.isEmpty then ({ s with rounds := rounds, topK := topK }, false)
      else
        let extraRel := checkRelevance E.gemini queryText extraCands
        ({ vectorHits := extraHits
           topK := topK
           candidates := dupdate s.candidates extraCands
           relevant := dupdate s.relevant extraRel
           rounds := rounds
           steps := s.steps ++ [.expansionRound rounds topK extraCands.length extraRel.length] },
         true)

/-- The fueled `while expansion_rounds < MAX_EXPANSION_ROUNDS` loop; each
continuing iteration increments `rounds` by exactly one, so fuel
`MAX_EXPANSION_ROUNDS` makes the fuel guard unreachable (proved below as
`expLoopGo_fuel_irrelevant`). -/
def expLoopGo {V : Type} (E : Engine V) (qv : V) (queryText : String) :
    Nat → ExpState → ExpState
  | 0, s => s
  | fuel + 1, s =>
    if s.rounds < MAX_EXPANSION_ROUNDS then
      let r := expBody E qv queryText s
      if r.2 then expLoopGo E qv queryText fuel r.1 else r.1
    else s

def expLoop {V : Type} (E : Engine V) (qv : V) (queryText : String)
    (s : ExpState) : ExpState :=
  expLoopGo E qv queryText MAX_EXPANSION_ROUNDS s

/-! ### Reference following (steps 6-8, `query_engine.py:302-349`) -/

/-- The loop state of steps 6-8: the accumulating extract map, the visited set
`all_followed`, the unresolved-reference set, and the step log. -/
structure RefState where
  relevant : PyDict JVal
  followed : List String
  unresolved : List String
  steps : List Step

/-- The raw reference strings attached to the current extracts and not yet
visited (`ref_ids`). -/
def refIdsOf (st : Store) (s : RefState) : List String :=
  s.relevant.foldl (fun acc kv =>
    (dgetD st.references kv.1 []).foldl (fun acc refKey =>
      if s.followed.contains refKey then acc else oadd acc refKey) acc) []

/-- Resolve this hop's raw references: unresolved ones are added to the
unresolved set, resolved ones are materialized into candidates keyed by the
resolved id. -/
def resolveHopRefs (st : Store) (ri : RefIndex) (unresolved : List String)
    (refIds : List String) : List String × PyDict Cand :=
  refIds.foldl (fun (acc : List String × PyDict Cand) rid =>
    match resolveRef st ri rid with
    | none => (oadd acc.1 rid, acc.2)
    | some rk => (acc.1, buildCandStep st acc.2 rk)) (unresolved, [])

/-- One hop of the reference loop: when candidates resolve, relevance-check
them, merge, and mark only the resolved candidate keys visited; otherwise mark
the raw reference ids visited. -/
def refHop {V : Type} (E : Engine V) (ri : RefIndex) (queryText : String)
    (depth : Nat) (s : RefState) (refIds : List String) : RefState :=
  let rc := resolveHopRefs E.store ri s.unresolved refIds
  if !rc.2.isEmpty then
    let refRel := checkRelevance E.gemini queryText rc.2
    { relevant := dupdate s.relevant refRel
      followed := (dkeys rc.2).foldl oadd s.followed
      unresolved := rc.1
      steps := s.steps ++ [.followRefsDepth depth rc.2.length refRel.length] }
  else
    { s with unresolved := rc.1, followed := refIds.foldl oadd s.followed }

/-- The `for depth in range(1, MAX_REFERENCE_DEPTH + 1)` loop with its early
break on an empty `ref_ids`. -/
def refsGo {V : Type} (E : Engine V) (ri : RefIndex) (queryText : String) :
    Nat → Nat → RefState → RefState
  | _, 0, s => s
  | depth, fuel + 1, s =>
    let ids := refIdsOf E.store s
    if ids.isEmpty then s
    else refsGo E ri queryText (depth + 1) fuel (refHop E ri queryText depth s ids)

def refsLoop {V : Type} (E : Engine V) (ri : RefIndex) (queryText : String)
    (s : RefState) : RefState :=
  refsGo E ri queryText 1 MAX_REFERENCE_DEPTH s

/-- The unfollowed references collected after the loop (duplicates kept, as in
the source list). -/
def unfollowedOf (st : Store) (relevant : PyDict JVal) (followed : List String) :
    List String :=
  relevant.foldl (fun acc kv =>
    (dgetD st.references kv.1 []).foldl (fun acc refKey =>
      if followed.contains refKey then acc else acc ++ [refKey]) acc) []

/-! ### API reference list and the response object -/

/-- An entry of the `references` list of the response. -/
structure ApiRef where
  id : String
  secCode : String
  title : String
  page : Int
  extract : String
  docId : String
  highlightText : List String
deriving DecidableEq, Repr

/-- The reference-building block at `query_engine.py:404-426`. -/
def buildApiRefs (st : Store) (queryText : String) (relevant : PyDict JVal) :
    List ApiRef :=
  relevant.map (fun kv =>
    let sid := kv.1
    let extract := kv.2
    let sec := dlookup st.sections sid
    let obj := dlookup st.objects sid
    let docPfx0 := (sec.map (·.docKeyPfx)).getD ""
    let docPfx :=
      if docPfx0 == "" then
        match obj with
        | some o => ((dlookup st.documents o.docId).map (·.keyPfx)).getD ""
        | none => docPfx0
      else docPfx0
    let objPage : Int := (obj.map (·.page)).getD 0
    { id := sid
      secCode := pyOrStr (sec.map (·.secCode)) ((obj.map (·.code)).getD sid)
      title := pyOrStr (sec.map (·.title)) ((obj.map (·.title)).getD "")
      page := match sec with
        | some s => if s.page != 0 then s.page else objPage
        | none => objPage
      extract := if extract.truthy then pyStr extract else ""
      docId := docPfx
      highlightText := extractHighlightTerms queryText (pyStr extract) })

/-- The response dict of `query`: `timings` and `missing_documents` are
`Option`s because the `no results` return site omits those keys. -/
structure Response where
  answer : String
  references : List ApiRef
  steps : List Step
  timings : Option (PyDict Int)
  missingDocs : Option (List String)

/-! ### The top-level `query` pipeline -/

/-- The message-list default of `query`: `messages = None` becomes a single
user message whose content is the query text, with no references. -/
def msgsOf (queryText : String) (messages : Option (List Msg)) : List Msg :=
  match messages with
  | none => [⟨"user", queryText, []⟩]
  | some ms => ms

/-- The explicit `no results` answer of the empty-candidate path. -/
def noResultsAnswer : String :=
  "I couldn't find any relevant sections in the indexed documents for your query. Please try rephrasing or being more specific."

/-- Model of `QueryEngine.query`.  `clock` is the wall-clock oracle: read `i`
models the `time.time()` call at the i-th read site of the taken path (the
engine only ever feeds these values into the timings map).  The fuzzy reference
index is built on first use within the call and is a pure function of the
store, so the per-instance cache of the source (`_ref_index`) yields the same
results (see `resolveSt_deterministic`). -/
def query {V : Type} (E : Engine V) (clock : Nat → ℚ) (queryText : String)
    (messages : Option (List Msg)) : Response :=
  let msgs := msgsOf queryText messages
  let pipelineStart := clock 0
  let t0i := clock 1
  let intent := classifyIntent E.gemini msgs
  let timings : PyDict Int := dinsert [] "1_intent" (msSince (clock 2) t0i)
  let steps : List Step := [.intent intent]
  if intent == "chat" then
    let t0c := clock 3
    let answer := conversationalResponse E.gemini msgs
    let timings := dinsert timings "chat_response" (msSince (clock 4) t0c)
    let timings := dinsert timings "total" (msSince (clock 5) pipelineStart)
    { answer := answer, references := [], steps := steps,
      timings := some timings, missingDocs := some [] }
  else
    let t0 := clock 3
    let queryVec := E.gemini.embedQuery queryText
    let timings := dinsert timings "2a_embed" (msSince (clock 4) t0)
    let t0 := clock 5
    let topK := 10
    let vectorHits := E.pinecone.search queryVec topK
    let hitIds := vectorHits.map (·.id)
    let timings := dinsert timings "2b_pinecone" (msSince (clock 6) t0)
    let steps := steps ++ [.vectorSearch vectorHits.length (hitIds.take 5)]
    let t0 := clock 7
    let keywords := extractKeywords E.gemini queryText
    let timings := dinsert timings "3a_keywords_llm" (msSince (clock 8) t0)
    let t0 := clock 9
    let expandedKeywords := expandKeywordsKV E.store keywords
    let keywordHits := keywordSearch E.store expandedKeywords
    let timings := dinsert timings "3b_keyword_search" (msSince (clock 10) t0)
    let steps := steps ++ [.keywordSearch keywords expandedKeywords keywordHits.length]
    let allCandidateIds := dedupF (hitIds ++ keywordHits)
    let candidates := buildCandidates E.store allCandidateIds
    if candidates.isEmpty then
      { answer := noResultsAnswer,
        references := [], steps := steps, timings := none, missingDocs := none }
    else
      let t0 := clock 11
      let relevantExtracts := checkRelevance E.gemini queryText candidates
      let timings := dinsert timings "4_relevance" (msSince (clock 12) t0)
      let steps := steps ++ [.relevanceCheck candidates.length relevantExtracts.length]
      let t0 := clock 13
      let expFinal := expLoop E queryVec queryText
        ⟨vectorHits, topK, candidates, relevantExtracts, 0, steps⟩
      let timings := dinsert timings "5_expansion" (msSince (clock 14) t0)
      let t0 := clock 15
      let ri := buildRefIndex E.store
      let refFinal := refsLoop E ri queryText
        ⟨expFinal.relevant, (dkeys expFinal.relevant).foldl oadd [], [], expFinal.steps⟩
      let timings := dinsert timings "6_8_refs" (msSince (clock 16) t0)
      let unfollowed := unfollowedOf E.store refFinal.relevant refFinal.followed
      let allUnresolved := unfollowed.foldl oadd refFinal.unresolved
      let missingDocs := collectMissingDocs E.store ri allUnresolved
      let t0 := clock 17
      let uniquePrecedence := precedenceNotes E.store refFinal.relevant
      let timings := dinsert timings "9_precedence" (msSince (clock 18) t0)
      let steps := refFinal.steps ++ [.precedenceStep uniquePrecedence.length]
      let t0 := clock 19
      let conflicts :=
        if decide (1 < refFinal.relevant.length) then
          checkConflicts E.gemini queryText refFinal.relevant
        else JVal.arr []
      let timings := dinsert timings "10_conflicts" (msSince (clock 20) t0)
      let steps := steps ++ [.conflictsStep (pyLen conflicts)]
      let t0 := clock 21
      let answer := synthesizeAnswer E.gemini E.store queryText refFinal.relevant
        uniquePrecedence conflicts unfollowed missingDocs
      let timings := dinsert timings "11_synthesize" (msSince (clock 22) t0)
      let references := buildApiRefs E.store queryText refFinal.relevant
      let timings := dinsert timings "total" (msSince (clock 23) pipelineStart)
      { answer := answer, references := references, steps := steps,
        timings := some timings, missingDocs := some missingDocs }

/-- The separator characters of the C6 claim: underscore, hyphen, space. -/
def isSep3 (c : Char) : Bool := c.toNat == 95 || c.toNat == 45 || c.toNat == 32

/-- Two codes differ only by separator characters: same length, and at every
position the characters are equal or both are separators. -/
def sepEquivCs : List Char → List Char → Bool
  | [], [] => true
  | a :: as, b :: bs => (a == b || (isSep3 a && isSep3 b)) && sepEquivCs as bs
  | _, _ => false

def sepEquiv (s t : String) : Bool := sepEquivCs (toCs s) (toCs t)

/-- The code contains no plus sign. -/
def noPlus (s : String) : Bool := (toCs s).all (fun c => c.toNat != 43)

/-- The response with the `timings` field removed, for stating that everything
except the wall-clock timings is independent of the clock. -/
def stripTimings (r : Response) : String × List ApiRef × List Step × Option (List String) :=
  (r.answer, r.references, r.steps, r.missingDocs)

/-! ### Concrete witness data used by the theorems below -/

def c7g : LLM Unit :=
  { generate := fun _ => .ok "chat"
    generateChat := fun _ _ _ => .ok "hello"
    generateJson := fun _ => .error "x"
    generateJsonFb := fun _ => .error "x"
    embedQuery := fun _ => () }

def c7E : Engine Unit := ⟨c7g, ⟨fun _ _ => []⟩, ⟨[], [], [], [], [], []⟩⟩

def c1g : LLM Unit :=
  { generate := fun _ => .ok "query"
    generateChat := fun _ _ _ => .ok "x"
    generateJson := fun _ => .ok []
    generateJsonFb := fun _ => .error "x"
    embedQuery := fun _ => () }

/-- An engine whose vector index returns no hits over an empty store: the
pipeline takes the explicit `no results` path. -/
def c1E : Engine Unit := ⟨c1g, ⟨fun _ _ => []⟩, ⟨[], [], [], [], [], []⟩⟩

def c1gChat : LLM Unit :=
  { generate := fun _ => .ok "chat"
    generateChat := fun _ _ _ => .ok "hello"
    generateJson := fun _ => .error "x"
    generateJsonFb := fun _ => .error "x"
    embedQuery := fun _ => () }

def c1EChat : Engine Unit := ⟨c1gChat, ⟨fun _ _ => []⟩, ⟨[], [], [], [], [], []⟩⟩

def c2cands : PyDict Cand :=
  [("c1", ⟨"1", "", "t1", 0⟩), ("c2", ⟨"2", "", "t2", 0⟩), ("c3", ⟨"3", "", "t3", 0⟩),
   ("c4", ⟨"4", "", "t4", 0⟩), ("c5", ⟨"5", "", "", 0⟩)]

def c2prompt1 : String :=
  relevancePrompt "q" (dumpsJ 1 (relevancePayload (c2cands.take 4)))

/-- An LLM that answers the first relevance batch with an object keyed by an id
that is not a candidate, and fails on every other call. -/
def c2g : LLM Unit :=
  { generate := fun _ => .error "x"
    generateChat := fun _ _ _ => .error "x"
    generateJson := fun _ => .error "x"
    generateJsonFb := fun p => if p == c2prompt1 then .ok (.obj [("zz", .str "x")]) else .error "x"
    embedQuery := fun _ => () }

def c2gw : LLM Unit :=
  { generate := fun _ => .error "x"
    generateChat := fun _ _ _ => .error "x"
    generateJson := fun _ => .error "x"
    generateJsonFb := fun _ => .error "x"
    embedQuery := fun _ => () }

def c3store : Store :=
  { sections := [("p_1", ⟨"1", "", "", 0, "p"⟩), ("p_2", ⟨"2", "", "", 0, "p"⟩)]
    objects := []
    references := [("p_1", ["p.2"])]
    precedence := []
    kvStore := []
    documents := [] }

def c3g : LLM Unit :=
  { generate := fun _ => .error "x"
    generateChat := fun _ _ _ => .error "x"
    generateJson := fun _ => .error "x"
    generateJsonFb := fun _ => .ok (.obj [("p_2", .str "r")])
    embedQuery := fun _ => () }

def c3E : Engine Unit := ⟨c3g, ⟨fun _ _ => []⟩, c3store⟩

def c3ri : RefIndex := buildRefIndex c3store

def c3s0 : RefState := ⟨[("p_1", .str "t")], ["p_1"], [], []⟩

def c4hits : List Hit :=
  [⟨"h1"⟩, ⟨"h2"⟩, ⟨"h3"⟩, ⟨"h4"⟩, ⟨"h5"⟩, ⟨"h6"⟩, ⟨"h7"⟩, ⟨"h8"⟩, ⟨"h9"⟩, ⟨"h10"⟩]

def c4E : Engine Unit := ⟨c2gw, ⟨fun _ _ => c4hits⟩, ⟨[], [], [], [], [], []⟩⟩

def c4s : ExpState := ⟨c4hits, 10, [], [("h10", .str "x")], 0, []⟩

def c5store : Store :=
  { sections := [("p_a_b", ⟨"a_b", "T1", "c1", 1, "p"⟩), ("p_a.b", ⟨"a.b", "T2", "c2", 2, "p"⟩)]
    objects := []
    references := []
    precedence := []
    kvStore := []
    documents := [("d1", ⟨"p", "EN 1990"⟩)] }

def c8gErr : LLM Unit :=
  { generate := fun _ => .error "rate limited"
    generateChat := fun _ _ _ => .error "x"
    generateJson := fun _ => .error "x"
    generateJsonFb := fun _ => .error "x"
    embedQuery := fun _ => () }

def c9g : LLM Unit :=
  { generate := fun _ => .error "x"
    generateChat := fun _ _ _ => .error "x"
    generateJson := fun _ => .error "x"
    generateJsonFb := fun _ => .error "parse failure"
    embedQuery := fun _ => () }

/-- Absence of normalization collisions among store keys: no key's
dot-to-underscore form equals a different key. -/
def noKeyCollision (st : Store) : Prop :=
  ∀ w ∈ allStoreKeys st, ∀ k ∈ allStoreKeys st, replaceC '.' '_' w = k → w = k


/-! ## Helper lemmas on the dictionary and set models -/

theorem dlookup_nil {α : Type} (x : String) : dlookup ([] : PyDict α) x = none := rfl

theorem dlookup_cons {α : Type} (kv : String × α) (d : PyDict α) (x : String) :
    dlookup (kv :: d) x = if kv.1 == x then some kv.2 else dlookup d x := by
  by_cases h : kv.1 == x <;> simp [dlookup, List.find?_cons, h]

theorem dlookup_append {α : Type} (d e : PyDict α) (x : String) :
    dlookup (d ++ e) x = (dlookup d x).or (dlookup e x) := by
  induction d with
  | nil => simp [dlookup_nil]
  | cons kv d ih =>
    rw [List.cons_append, dlookup_cons, dlookup_cons]
    by_cases h : kv.1 == x <;> simp [h, ih]

theorem dlookup_dinsert {α : Type} (d : PyDict α) (k : String) (v : α) (x : String) :
    dlookup (dinsert d k v) x = if x = k then some v else dlookup d x := by
  induction d with
  | nil =>
    rw [dinsert, dlookup_cons]
    by_cases hx : x = k
    · subst hx; simp
    · have : ¬(k == x) = true := by simpa using fun h' => hx h'.symm
      simp [hx, this, dlookup_nil]
  | cons kv d ih =>
    rw [dinsert]
    by_cases hh : kv.1 == k
    · have hk : kv.1 = k := by simpa using hh
      rw [if_pos hh, dlookup_cons, dlookup_cons]
      by_cases hx : x = k
      · subst hx; simp
      · have h1 : ¬(k == x) = true := by simpa using fun h' => hx h'.symm
        have h2 : ¬(kv.1 == x) = true := by simpa [hk] using fun h' => hx h'.symm
        simp [hx, h1, h2]
    · rw [if_neg hh, dlookup_cons, dlookup_cons, ih]
      by_cases hx : x = k
      · subst hx
        have h2 : ¬(kv.1 == x) = true := by
          simpa using fun h' => hh (by simpa using h')
        simp [h2]
      · simp [hx]

theorem mem_dkeys_dinsert_iff {α : Type} (d : PyDict α) (k : String) (v : α) (x : String) :
    x ∈ dkeys (dinsert d k v) ↔ x ∈ dkeys d ∨ x = k := by
  induction d with
  | nil => simp [dinsert, dkeys]
  | cons kv d ih =>
    rw [dinsert]
    by_cases hh : kv.1 == k
    · have hk : kv.1 = k := by simpa using hh
      rw [if_pos hh]
      show x ∈ k :: dkeys d ↔ x ∈ kv.1 :: dkeys d ∨ x = k
      rw [hk]
      simp only [List.mem_cons]
      tauto
    · rw [if_neg hh]
      show x ∈ kv.1 :: dkeys (dinsert d k v) ↔ x ∈ kv.1 :: dkeys d ∨ x = k
      simp only [List.mem_cons, ih]
      tauto

theorem mem_dkeys_dinsert {α : Type} (d : PyDict α) (k : String) (v : α) (x : String)
    (hx : x ∈ dkeys (dinsert d k v)) : x ∈ dkeys d ∨ x = k :=
  (mem_dkeys_dinsert_iff d k v x).1 hx

theorem dlookup_dsetdefault {α : Type} (d : PyDict α) (k : String) (v : α) (x : String) :
    dlookup (dsetdefault d k v) x =
      if x = k ∧ dmem d k = false then some v else dlookup d x := by
  unfold dsetdefault
  by_cases hm : dmem d k
  · simp [hm]
  · have hm' : dmem d k = false := by simpa using hm
    simp only [hm, Bool.false_eq_true, if_neg, not_false_iff]
    rw [dlookup_append]
    by_cases hx : x = k
    · subst hx
      have hnone : dlookup d x = none := by
        cases h : dlookup d x with
        | none => rfl
        | some w => exact absurd (show dmem d x = true by simp [dmem, h]) hm
      rw [hnone, dlookup_cons]
      simp [hm', Option.or]
    · have h1 : ¬(k == x) = true := by simpa using fun h' => hx h'.symm
      rw [dlookup_cons]
      rcases h : dlookup d x with _ | w <;> simp [h, h1, hx, dlookup_nil, Option.or]

theorem mem_dkeys_dupdate {α : Type} (d e : PyDict α) (x : String)
    (hx : x ∈ dkeys (dupdate d e)) : x ∈ dkeys d ∨ x ∈ dkeys e := by
  induction e generalizing d with
  | nil => exact Or.inl hx
  | cons kv e ih =>
    rcases ih (dinsert d kv.1 kv.2) hx with h | h
    · rcases mem_dkeys_dinsert d kv.1 kv.2 x h with h' | h'
      · exact Or.inl h'
      · exact Or.inr (by simp [dkeys, h'])
    · exact Or.inr (by simp [dkeys] at h ⊢; exact Or.inr h)

theorem dlookup_dupdate_cases {α : Type} (d e : PyDict α) (x : String) (v : α)
    (h : dlookup (dupdate d e) x = some v) :
    dlookup d x = some v ∨ (x, v) ∈ e := by
  induction e generalizing d with
  | nil => exact Or.inl h
  | cons kv e ih =>
    rcases ih (dinsert d kv.1 kv.2) h with h' | h'
    · rw [dlookup_dinsert] at h'
      by_cases hx : x = kv.1
      · subst hx
        rw [if_pos rfl] at h'
        have hv : v = kv.2 := by injection h' with h2; exact h2.symm
        subst hv
        exact Or.inr (by cases kv with | mk a b => exact List.mem_cons_self _ _)
      · rw [if_neg hx] at h'
        exact Or.inl h'
    · exact Or.inr (List.mem_cons_of_mem _ h')

theorem mem_oadd (s : List String) (x y : String) :
    y ∈ oadd s x ↔ y ∈ s ∨ y = x := by
  unfold oadd
  by_cases h : x ∈ s
  · simp [h]; intro hy; subst hy; exact h
  · simp [h]

theorem subset_oadd (s : List String) (x y : String) (h : y ∈ s) : y ∈ oadd s x :=
  (mem_oadd s x y).2 (Or.inl h)

theorem subset_foldl_oadd (l s : List String) (y : String) (h : y ∈ s) :
    y ∈ l.foldl oadd s := by
  induction l generalizing s with
  | nil => exact h
  | cons a l ih => exact ih (oadd s a) (subset_oadd s a y h)

theorem mem_of_foldl_oadd (l s : List String) (y : String) (h : y ∈ l.foldl oadd s) :
    y ∈ s ∨ y ∈ l := by
  induction l generalizing s with
  | nil => exact Or.inl h
  | cons a l ih =>
    rcases ih (oadd s a) h with h' | h'
    · rcases (mem_oadd s a y).1 h' with h'' | h''
      · exact Or.inl h''
      · exact Or.inr (by simp [h''])
    · exact Or.inr (List.mem_cons_of_mem _ h')

theorem mem_foldl_oadd_of_mem (l s : List String) (y : String) (h : y ∈ l) :
    y ∈ l.foldl oadd s := by
  induction l generalizing s with
  | nil => cases h
  | cons a l ih =>
    rcases List.mem_cons.1 h with h' | h'
    · subst h'
      exact subset_foldl_oadd l (oadd s y) y ((mem_oadd s y y).2 (Or.inr rfl))
    · exact ih (oadd s a) h'

theorem mem_dkeys_buildCandStep (st : Store) (acc : PyDict Cand) (sid k : String)
    (h : k ∈ dkeys (buildCandStep st acc sid)) : k ∈ dkeys acc ∨ k = sid := by
  unfold buildCandStep at h
  cases hs : dlookup st.sections sid with
  | some sec => rw [hs] at h; exact mem_dkeys_dinsert _ _ _ _ h
  | none =>
    rw [hs] at h
    cases ho : dlookup st.objects sid with
    | some obj => rw [ho] at h; exact mem_dkeys_dinsert _ _ _ _ h
    | none => rw [ho] at h; exact Or.inl h

theorem mem_dkeys_foldl_buildCandStep (st : Store) (ids : List String) :
    ∀ (acc : PyDict Cand) (k : String),
      k ∈ dkeys (ids.foldl (buildCandStep st) acc) → k ∈ dkeys acc ∨ k ∈ ids := by
  induction ids with
  | nil => intro acc k h; exact Or.inl h
  | cons sid ids ih =>
    intro acc k h
    rw [List.foldl_cons] at h
    rcases ih _ k h with h' | h'
    · rcases mem_dkeys_buildCandStep st acc sid k h' with h'' | h''
      · exact Or.inl h''
      · exact Or.inr (by simp [h''])
    · exact Or.inr (List.mem_cons_of_mem _ h')

theorem mem_dkeys_buildCandidates (st : Store) (ids : List String) (k : String)
    (h : k ∈ dkeys (buildCandidates st ids)) : k ∈ ids := by
  unfold buildCandidates at h
  rcases mem_dkeys_foldl_buildCandStep st ids [] k h with h' | h'
  · cases h'
  · exact h'

theorem mem_of_dlookup_eq_some {α : Type} (d : PyDict α) (k : String) (v : α)
    (h : dlookup d k = some v) : (k, v) ∈ d := by
  induction d with
  | nil => cases h
  | cons kv d ih =>
    rw [dlookup_cons] at h
    by_cases hh : kv.1 == k
    · rw [if_pos hh] at h
      have hk : kv.1 = k := by simpa using hh
      have hv : kv.2 = v := by injection h
      rw [← hk, ← hv]
      exact List.mem_cons_self _ _
    · rw [if_neg hh] at h
      exact List.mem_cons_of_mem _ (ih h)

theorem mem_dinsert {α : Type} (d : PyDict α) (k : String) (v : α) (x : String × α)
    (h : x ∈ dinsert d k v) : x ∈ d ∨ x = (k, v) := by
  induction d with
  | nil => simpa [dinsert] using h
  | cons kv d ih =>
    rw [dinsert] at h
    by_cases hh : kv.1 == k
    · rw [if_pos hh] at h
      rcases List.mem_cons.1 h with h' | h'
      · exact Or.inr h'
      · exact Or.inl (List.mem_cons_of_mem _ h')
    · rw [if_neg hh] at h
      rcases List.mem_cons.1 h with h' | h'
      · exact Or.inl (by simp [h'])
      · rcases ih h' with h'' | h''
        · exact Or.inl (List.mem_cons_of_mem _ h'')
        · exact Or.inr h''

theorem mem_dkeys_of_mem {α : Type} (d : PyDict α) (k : String) (v : α)
    (h : (k, v) ∈ d) : k ∈ dkeys d :=
  List.mem_map.2 ⟨(k, v), h, rfl⟩

theorem exists_of_mem_dkeys {α : Type} (d : PyDict α) (k : String)
    (h : k ∈ dkeys d) : ∃ v, (k, v) ∈ d := by
  simp only [dkeys, List.mem_map] at h
  rcases h with ⟨kv, hkv, hk⟩
  exact ⟨kv.2, by cases kv; simpa [← hk] using hkv⟩

theorem dmem_exists {α : Type} (d : PyDict α) (k : String)
    (h : k ∈ dkeys d) : ∃ v, dlookup d k = some v := by
  induction d with
  | nil => cases h
  | cons kv d ih =>
    rw [dlookup_cons]
    by_cases hh : kv.1 == k
    · exact ⟨kv.2, by rw [if_pos hh]⟩
    · have : k ∈ dkeys d := by
        rcases List.mem_cons.1 h with h' | h'
        · exact absurd (by simp [h']) hh
        · exact h'
      rcases ih this with ⟨v, hv⟩
      exact ⟨v, by rw [if_neg hh]; exact hv⟩

theorem dlookup_of_mem_nodup {α : Type} (d : PyDict α) (k : String) (v : α)
    (h : (k, v) ∈ d) (hnd : (dkeys d).Nodup) : dlookup d k = some v := by
  induction d with
  | nil => cases h
  | cons kv d ih =>
    rw [dlookup_cons]
    rcases List.mem_cons.1 h with h' | h'
    · rw [← h']; simp
    · by_cases hh : kv.1 == k
      · have hk : kv.1 = k := by simpa using hh
        have : k ∈ dkeys d := mem_dkeys_of_mem d k v h'
        rw [show dkeys (kv :: d) = kv.1 :: dkeys d from rfl] at hnd
        exact absurd (hk ▸ this) (List.nodup_cons.1 hnd).1
      · rw [if_neg hh]
        have hnd' : (dkeys d).Nodup :=
          (List.nodup_cons.1 (by simpa [dkeys] using hnd)).2
        exact ih h' hnd'

theorem chunksAux_flatten {α : Type} (n : Nat) (hn : 0 < n) :
    ∀ (fuel : Nat) (l : List α), l.length ≤ fuel → (chunksAux n fuel l).flatten = l := by
  intro fuel
  induction fuel with
  | zero =>
    intro l hl
    cases l with
    | nil => rfl
    | cons x xs => simp at hl
  | succ fuel ih =>
    intro l hl
    cases l with
    | nil => rfl
    | cons x xs =>
      rw [chunksAux, List.flatten_cons, ih ((x :: xs).drop n)
        (by rw [List.length_drop]; simp only [List.length_cons] at hl ⊢; omega)]
      exact List.take_append_drop n (x :: xs)

theorem chunksBy_flatten {α : Type} (n : Nat) (hn : 0 < n) (l : List α) :
    (chunksBy n l).flatten = l :=
  chunksAux_flatten n hn l.length l le_rfl

theorem mem_of_mem_chunksBy {α : Type} (n : Nat) (hn : 0 < n) (l : List α)
    (b : List α) (hb : b ∈ chunksBy n l) (x : α) (hx : x ∈ b) : x ∈ l := by
  rw [← chunksBy_flatten n hn l]
  exact List.mem_flatten.2 ⟨b, hb, hx⟩

theorem mem_relevFold (kvs : List (String × JVal)) (k : String) (v : JVal) :
    ∀ acc : PyDict JVal,
      (k, v) ∈ kvs.foldl (fun acc kv => if kv.2.truthy then dinsert acc kv.1 kv.2 else acc) acc →
      (k, v) ∈ acc ∨ (v.truthy = true ∧ k ∈ kvs.map Prod.fst) := by
  induction kvs with
  | nil => intro acc h; exact Or.inl h
  | cons kv kvs ih =>
    intro acc h
    rw [List.foldl_cons] at h
    rcases ih _ h with h' | h'
    · by_cases ht : kv.2.truthy
      · rw [if_pos ht] at h'
        rcases mem_dinsert _ _ _ _ h' with h'' | h''
        · exact Or.inl h''
        · refine Or.inr ⟨?_, ?_⟩
          · have : v = kv.2 := congrArg Prod.snd h''
            rw [this]; exact ht
          · have : k = kv.1 := congrArg Prod.fst h''
            simp [this]
      · rw [if_neg ht] at h'
        exact Or.inl h'
    · exact Or.inr ⟨h'.1, List.mem_cons_of_mem _ (by simpa using h'.2)⟩

theorem mem_relevanceFallback (b : PyDict Cand) (k : String) (v : JVal)
    (h : (k, v) ∈ relevanceFallback b) :
    ∃ c, (k, c) ∈ b ∧ v = .str (pyTakeStr c.content 500) := by
  unfold relevanceFallback at h
  rcases List.mem_map.1 h with ⟨kv, hkv, he⟩
  refine ⟨kv.2, ?_, ?_⟩
  · have : k = kv.1 := (congrArg Prod.fst he).symm
    rw [this]; cases kv; exact hkv
  · exact (congrArg Prod.snd he).symm

/-- Case analysis of a single relevance batch result: an entry comes either
from a successful LLM object (truthy, key among the returned keys) or from the
include-all fallback (truncated content of a batch candidate). -/
theorem mem_checkRelevanceBatch {V : Type} (g : LLM V) (q : String)
    (b : PyDict Cand) (k : String) (v : JVal)
    (h : (k, v) ∈ checkRelevanceBatch g q b) :
    (v.truthy = true ∧ ∃ kvs,
      g.generateJsonFb (relevancePrompt q (dumpsJ 1 (relevancePayload b))) =
        .ok (.obj kvs) ∧ k ∈ kvs.map Prod.fst) ∨
    (∃ c, (k, c) ∈ b ∧ v = .str (pyTakeStr c.content 500)) := by
  unfold checkRelevanceBatch at h
  cases hg : g.generateJsonFb (relevancePrompt q (dumpsJ 1 (relevancePayload b))) with
  | ok jv =>
    rw [hg] at h
    cases jv with
    | obj kvs =>
      rcases mem_relevFold kvs k v [] h with h' | h'
      · cases h'
      · exact Or.inl ⟨h'.1, kvs, rfl, h'.2⟩
    | null => exact Or.inr (mem_relevanceFallback b k v h)
    | bool x => exact Or.inr (mem_relevanceFallback b k v h)
    | num x => exact Or.inr (mem_relevanceFallback b k v h)
    | str x => exact Or.inr (mem_relevanceFallback b k v h)
    | arr x => exact Or.inr (mem_relevanceFallback b k v h)
  | error e =>
    rw [hg] at h
    exact Or.inr (mem_relevanceFallback b k v h)

theorem dlookup_foldl_dupdate {α β : Type} (f : β → PyDict α)
    (batches : List β) (k : String) (v : α) :
    ∀ init : PyDict α,
      dlookup (batches.foldl (fun acc b => dupdate acc (f b)) init) k = some v →
      dlookup init k = some v ∨ ∃ b ∈ batches, (k, v) ∈ f b := by
  induction batches with
  | nil => intro init h; exact Or.inl h
  | cons b batches ih =>
    intro init h
    rw [List.foldl_cons] at h
    rcases ih _ h with h' | h'
    · rcases dlookup_dupdate_cases init (f b) k v h' with h'' | h''
      · exact Or.inl h''
      · exact Or.inr ⟨b, by simp, h''⟩
    · rcases h' with ⟨b', hb', hkv⟩
      exact Or.inr ⟨b', List.mem_cons_of_mem _ hb', hkv⟩

/-- Every entry of a `_check_relevance` result comes from one of the batches. -/
theorem checkRelevance_lookup_cases {V : Type} (g : LLM V) (q : String)
    (cands : PyDict Cand) (k : String) (v : JVal)
    (h : dlookup (checkRelevance g q cands) k = some v) :
    ∃ b ∈ chunksBy RELEVANCE_BATCH_SIZE cands, (k, v) ∈ checkRelevanceBatch g q b := by
  unfold checkRelevance at h
  by_cases hc : cands.isEmpty
  · rw [if_pos hc] at h; cases h
  · rw [if_neg hc] at h
    by_cases h1 : (chunksBy RELEVANCE_BATCH_SIZE cands).length == 1
    · rw [if_pos h1] at h
      have hne : chunksBy RELEVANCE_BATCH_SIZE cands ≠ [] := by
        intro he; rw [he] at h1; simp at h1
      cases hb : chunksBy RELEVANCE_BATCH_SIZE cands with
      | nil => exact absurd hb hne
      | cons b rest =>
        rw [hb] at h
        simp only [List.headD_cons] at h
        exact ⟨b, by simp [hb], mem_of_dlookup_eq_some _ k v h⟩
    · rw [if_neg h1] at h
      rcases dlookup_foldl_dupdate (checkRelevanceBatch g q) _ k v [] h with h' | h'
      · cases h'
      · exact h'

/-! ## C10: omitted messages default to a single synthesized user message -/

/-- C10: if `query` is called with `messages` omitted (`None`), it behaves
exactly as if called with the single user message whose content is the query
text and whose references list is empty — the whole response objects coincide,
so in particular intent classification and the chat reply operate on that
synthesized one-message history. -/
theorem c10_none_messages_default {V : Type} (E : Engine V) (clock : Nat → ℚ)
    (qt : String) :
    query E clock qt none = query E clock qt (some [⟨"user", qt, []⟩]) := rfl

/-! ## C1: which response fields each return path carries -/

/-- C1 counterexample: on the explicit `no results` path (empty candidate set)
the returned object carries no `timings` and no `missing_documents` key
(`query_engine.py:239-243` returns only `answer`, `references`, `steps`), so
the claim that every call returns all five fields is false. -/
theorem c1_counterexample :
    (query c1E (fun _ => 0) "q" none).answer = noResultsAnswer ∧
    (query c1E (fun _ => 0) "q" none).timings = none ∧
    (query c1E (fun _ => 0) "q" none).missingDocs = none := ⟨rfl, rfl, rfl⟩

/-- C1 (amended): every call to `query` returns an object with `answer`,
`references` and `steps`; `timings` and `missing_documents` are both present on
the chat path and on the full pipeline path, but both are omitted on the
explicit `no results` path (empty candidate set), whose answer is the fixed
`no results` text with an empty reference list.  In particular, when intent is
classified as chat, all five fields are present. -/
theorem c1_response_fields {V : Type} (E : Engine V) (clock : Nat → ℚ)
    (qt : String) (msgs : Option (List Msg)) :
    (((query E clock qt msgs).timings.isSome ∧ (query E clock qt msgs).missingDocs.isSome) ∨
      ((query E clock qt msgs).timings = none ∧ (query E clock qt msgs).missingDocs = none ∧
       (query E clock qt msgs).answer = noResultsAnswer ∧
       (query E clock qt msgs).references = [])) ∧
    (classifyIntent E.gemini (msgsOf qt msgs) = "chat" →
      (query E clock qt msgs).timings.isSome ∧ (query E clock qt msgs).missingDocs.isSome) := by
  constructor
  · simp only [query]
    split
    · left; exact ⟨rfl, rfl⟩
    · split
      · right; exact ⟨rfl, rfl, rfl, rfl⟩
      · left; exact ⟨rfl, rfl⟩
  · intro hc
    simp only [query]
    split
    · exact ⟨rfl, rfl⟩
    · rename_i h
      exact absurd (by simp [hc]) h

/-- Witness for C1 (amended) on a concrete chat-path run. -/
theorem c1_response_fields_witness :
    (query c1EChat (fun _ => 0) "hi" none).timings.isSome ∧
    (query c1EChat (fun _ => 0) "hi" none).missingDocs.isSome :=
  (c1_response_fields c1EChat (fun _ => 0) "hi" none).2 rfl

/-! ## C2: the relevance-filter subset/non-empty invariant -/

/-- C2 counterexample: with five candidates (two batches), a first-batch LLM
response keyed by the foreign id `zz` survives the truthiness filter into the
merged map (so the key set is not a subset of the candidates), and the failed
second batch's fallback maps candidate `c5`, whose content is empty, to the
empty string (so not every value is non-empty). -/
theorem c2_counterexample :
    ("zz" ∈ dkeys (checkRelevance c2g "q" c2cands) ∧ "zz" ∉ dkeys c2cands) ∧
    dlookup (checkRelevance c2g "q" c2cands) "c5" = some (.str "") ∧
    JVal.truthy (.str "") = false := by
  have h : checkRelevance c2g "q" c2cands = [("zz", .str "x"), ("c5", .str "")] := rfl
  refine ⟨⟨?_, ?_⟩, ?_, rfl⟩
  · rw [h]; decide
  · decide
  · rw [h]; rfl

/-- C2 (amended): for every query text and candidate map (unique keys, as for a
Python dict), every key of the merged relevance-filter result is either a
candidate key or a key returned by a successful batch LLM call; under the
collaborator contract that each batch result only uses that batch's candidate
ids, the key set is a subset of the candidates' keys, and every value is
either truthy (non-null, non-empty) or the include-all fallback of a failed
batch: the candidate's content truncated to 500 characters, which is empty
exactly when that content is empty. -/
theorem c2_relevance_invariant {V : Type} (g : LLM V) (q : String)
    (cands : PyDict Cand) (hnd : (dkeys cands).Nodup)
    (hcontract : ∀ b ∈ chunksBy RELEVANCE_BATCH_SIZE cands, ∀ kvs,
      g.generateJsonFb (relevancePrompt q (dumpsJ 1 (relevancePayload b))) =
        .ok (.obj kvs) → ∀ k ∈ kvs.map Prod.fst, k ∈ dkeys b) :
    (∀ k ∈ dkeys (checkRelevance g q cands), k ∈ dkeys cands) ∧
    (∀ k v, dlookup (checkRelevance g q cands) k = some v →
      v.truthy = true ∨
        ∃ c, dlookup cands k = some c ∧ v = .str (pyTakeStr c.content 500)) := by
  have hpos : 0 < RELEVANCE_BATCH_SIZE := by decide
  have main : ∀ k v, dlookup (checkRelevance g q cands) k = some v →
      k ∈ dkeys cands ∧ (v.truthy = true ∨
        ∃ c, dlookup cands k = some c ∧ v = .str (pyTakeStr c.content 500)) := by
    intro k v h
    rcases checkRelevance_lookup_cases g q cands k v h with ⟨b, hb, hmem⟩
    rcases mem_checkRelevanceBatch g q b k v hmem with ⟨ht, kvs, hok, hk⟩ | ⟨c, hc, hv⟩
    · have hkb : k ∈ dkeys b := hcontract b hb kvs hok k hk
      rcases exists_of_mem_dkeys b k hkb with ⟨c, hcb⟩
      have hmem2 : (k, c) ∈ cands :=
        mem_of_mem_chunksBy RELEVANCE_BATCH_SIZE hpos cands b hb (k, c) hcb
      exact ⟨mem_dkeys_of_mem _ _ _ hmem2, Or.inl ht⟩
    · have hmem2 : (k, c) ∈ cands :=
        mem_of_mem_chunksBy RELEVANCE_BATCH_SIZE hpos cands b hb (k, c) hc
      exact ⟨mem_dkeys_of_mem _ _ _ hmem2,
        Or.inr ⟨c, dlookup_of_mem_nodup _ _ _ hmem2 hnd, hv⟩⟩
  constructor
  · intro k hk
    rcases dmem_exists _ k hk with ⟨v, hv⟩
    exact (main k v hv).1
  · intro k v h
    exact (main k v h).2

/-- Witness for C2 (amended) at a concrete failing-LLM engine. -/
theorem c2_relevance_invariant_witness :
    "a" ∈ dkeys [("a", (⟨"1", "", "xy", 0⟩ : Cand))] :=
  (c2_relevance_invariant c2gw "q" [("a", ⟨"1", "", "xy", 0⟩)] (by decide)
    (fun b hb kvs hok => by simp [c2gw] at hok)).1 "a" (by decide)

/-! ## C4: the expansion controller -/

/-- Per-iteration case analysis of the step-5 loop body: either a `break` fired
before the round counter moved and the state is returned unchanged, or a round
occurred — and then the guards held (full window, a bottom-two hit relevant),
the counter advanced by exactly one and `top_k` grew by exactly 10. -/
theorem expBody_spec {V : Type} (E : Engine V) (qv : V) (q : String) (s : ExpState) :
    ((expBody E qv q s).1 = s ∧ (expBody E qv q s).2 = false) ∨
    ((expBody E qv q s).1.rounds = s.rounds + 1 ∧
     (expBody E qv q s).1.topK = s.topK + 10 ∧
     s.topK ≤ s.vectorHits.length ∧
     ((lastTwo s.vectorHits).map (·.id)).any (fun bid => dmem s.relevant bid) = true) := by
  unfold expBody
  by_cases h1 : s.vectorHits.length < s.topK
  · rw [if_pos h1]; exact Or.inl ⟨rfl, rfl⟩
  · rw [if_neg h1]
    by_cases h2 : !((lastTwo s.vectorHits).map (·.id)).any (fun bid => dmem s.relevant bid)
    · rw [if_pos h2]; exact Or.inl ⟨rfl, rfl⟩
    · rw [if_neg h2]
      have ha : ((lastTwo s.vectorHits).map (·.id)).any (fun bid => dmem s.relevant bid) = true := by
        simpa using h2
      have hw : s.topK ≤ s.vectorHits.length := Nat.le_of_not_lt h1
      by_cases h3 : (newIdsOf s.candidates (E.pinecone.search qv (s.topK + 10))).isEmpty
      · rw [if_pos h3]; exact Or.inr ⟨rfl, rfl, hw, ha⟩
      · rw [if_neg h3]
        by_cases h4 : (buildCandidates E.store
            (newIdsOf s.candidates (E.pinecone.search qv (s.topK + 10)))).isEmpty
        · rw [if_pos h4]; exact Or.inr ⟨rfl, rfl, hw, ha⟩
        · rw [if_neg h4]; exact Or.inr ⟨rfl, rfl, hw, ha⟩

theorem expLoopGo_rounds_le {V : Type} (E : Engine V) (qv : V) (q : String) :
    ∀ (fuel : Nat) (s : ExpState), (expLoopGo E qv q fuel s).rounds ≤ s.rounds + fuel := by
  intro fuel
  induction fuel with
  | zero => intro s; simp [expLoopGo]
  | succ fuel ih =>
    intro s
    rw [expLoopGo]
    by_cases hg : s.rounds < MAX_EXPANSION_ROUNDS
    · rw [if_pos hg]
      rcases expBody_spec E qv q s with ⟨he, hf⟩ | ⟨hr, _, _, _⟩
      · by_cases hc : (expBody E qv q s).2
        · rw [hf] at hc; cases hc
        · simp only [hc, Bool.false_eq_true, if_neg, not_false_iff, he]
          omega
      · by_cases hc : (expBody E qv q s).2
        · simp only [hc, if_pos]
          have := ih (expBody E qv q s).1
          omega
        · simp only [hc, Bool.false_eq_true, if_neg, not_false_iff]
          omega
    · rw [if_neg hg]; omega

/-- The fuel bound of the translated `while` loop is irrelevant once it covers
`MAX_EXPANSION_ROUNDS - rounds`, because each continuing iteration increments
the round counter: the fueled translation is faithful to the unbounded
`while expansion_rounds < MAX_EXPANSION_ROUNDS` loop. -/
theorem expLoopGo_fuel_irrelevant {V : Type} (E : Engine V) (qv : V) (q : String) :
    ∀ (f1 f2 : Nat) (s : ExpState), MAX_EXPANSION_ROUNDS ≤ s.rounds + f1 →
      MAX_EXPANSION_ROUNDS ≤ s.rounds + f2 →
      expLoopGo E qv q f1 s = expLoopGo E qv q f2 s := by
  intro f1
  induction f1 with
  | zero =>
    intro f2 s h1 h2
    cases f2 with
    | zero => rfl
    | succ f2 =>
      rw [expLoopGo, expLoopGo, if_neg (by omega)]
  | succ f1 ih =>
    intro f2 s h1 h2
    cases f2 with
    | zero =>
      rw [expLoopGo, expLoopGo, if_neg (by omega)]
    | succ f2 =>
      rw [expLoopGo, expLoopGo]
      by_cases hg : s.rounds < MAX_EXPANSION_ROUNDS
      · rw [if_pos hg, if_pos hg]
        by_cases hc : (expBody E qv q s).2
        · simp only [hc, if_pos]
          rcases expBody_spec E qv q s with ⟨_, hf⟩ | ⟨hr, _, _, _⟩
          · rw [hf] at hc; cases hc
          · exact ih f2 (expBody E qv q s).1 (by omega) (by omega)
        · simp only [hc, Bool.false_eq_true, if_neg, not_false_iff]
      · rw [if_neg hg, if_neg hg]

/-- C4: over every vector-index behaviour, the expansion loop runs at most
`MAX_EXPANSION_ROUNDS = 5` rounds from a fresh state; a round occurs only when
the previous search returned a full window (at least `top_k` hits) and at
least one of the two lowest-ranked hits is in the relevant set, and then
`top_k` grows by exactly 10; and the candidate set relevance-filtered in a
round (the materialization of the newly revealed ids, as fed to
`_check_relevance` in `expBody`) is disjoint from the already-seen candidates. -/
theorem c4_expansion_controller {V : Type} (E : Engine V) (qv : V) (q : String) :
    (∀ s : ExpState, s.rounds = 0 → (expLoop E qv q s).rounds ≤ MAX_EXPANSION_ROUNDS) ∧
    (∀ s : ExpState, (expBody E qv q s).1.rounds ≠ s.rounds →
      ((expBody E qv q s).1.rounds = s.rounds + 1 ∧
       (expBody E qv q s).1.topK = s.topK + 10 ∧
       s.topK ≤ s.vectorHits.length ∧
       ((lastTwo s.vectorHits).map (·.id)).any (fun bid => dmem s.relevant bid) = true)) ∧
    (∀ (s : ExpState) (k : String),
      k ∈ dkeys (buildCandidates E.store
        (newIdsOf s.candidates (E.pinecone.search qv (s.topK + 10)))) →
      dmem s.candidates k = false) := by
  refine ⟨?_, ?_, ?_⟩
  · intro s hs
    have := expLoopGo_rounds_le E qv q MAX_EXPANSION_ROUNDS s
    unfold expLoop
    omega
  · intro s hne
    rcases expBody_spec E qv q s with ⟨he, _⟩ | h
    · exact absurd (by rw [he]) hne
    · exact h
  · intro s k hk
    have hid : k ∈ newIdsOf s.candidates (E.pinecone.search qv (s.topK + 10)) :=
      mem_dkeys_buildCandidates _ _ _ hk
    unfold newIdsOf at hid
    have := (List.mem_filter.1 hid).2
    simpa using this

/-- Witness for C4 at a concrete state where one expansion round fires. -/
theorem c4_expansion_controller_witness :
    (expLoop c4E () "q" c4s).rounds ≤ MAX_EXPANSION_ROUNDS ∧
    (expBody c4E () "q" c4s).1.topK = c4s.topK + 10 := by
  have h := c4_expansion_controller c4E () "q"
  exact ⟨h.1 c4s rfl, (h.2.1 c4s (by decide)).2.1⟩

/-! ## C3: reference expansion and the visited set -/

/-- C3 counterexample: section `p_1` carries the raw reference `p.2`, which
resolves (by dot normalization) to the distinct id `p_2`.  Hop 1 touches and
resolves `p.2`, but only the resolved id `p_2` — not the raw string — is marked
visited, so the claim that all ids touched in a hop are marked visited is
false; consequently the same reference is re-resolved and its target
re-relevance-checked at depths 2 and 3, as the step log records. -/
theorem c3_counterexample :
    refIdsOf c3store c3s0 = ["p.2"] ∧
    "p.2" ∉ (refHop c3E c3ri "q" 1 c3s0 (refIdsOf c3store c3s0)).followed ∧
    (refsLoop c3E c3ri "q" c3s0).steps =
      [.followRefsDepth 1 1 1, .followRefsDepth 2 1 1, .followRefsDepth 3 1 1] :=
  ⟨rfl, by decide, rfl⟩

theorem refHop_followed_mono {V : Type} (E : Engine V) (ri : RefIndex) (q : String)
    (d : Nat) (s : RefState) (ids : List String) (x : String)
    (h : x ∈ s.followed) : x ∈ (refHop E ri q d s ids).followed := by
  simp only [refHop]
  split
  · exact subset_foldl_oadd _ _ _ h
  · exact subset_foldl_oadd _ _ _ h

theorem refsGo_followed_mono {V : Type} (E : Engine V) (ri : RefIndex) (q : String) :
    ∀ (fuel depth : Nat) (s : RefState) (x : String),
      x ∈ s.followed → x ∈ (refsGo E ri q depth fuel s).followed := by
  intro fuel
  induction fuel with
  | zero => intro depth s x h; exact h
  | succ fuel ih =>
    intro depth s x h
    rw [refsGo]
    split
    · exact h
    · exact ih _ _ x (refHop_followed_mono E ri q depth s _ x h)

theorem refHop_steps_le {V : Type} (E : Engine V) (ri : RefIndex) (q : String)
    (d : Nat) (s : RefState) (ids : List String) :
    (refHop E ri q d s ids).steps.length ≤ s.steps.length + 1 := by
  simp only [refHop]
  split
  · simp
  · simp

theorem refsGo_steps_le {V : Type} (E : Engine V) (ri : RefIndex) (q : String) :
    ∀ (fuel depth : Nat) (s : RefState),
      (refsGo E ri q depth fuel s).steps.length ≤ s.steps.length + fuel := by
  intro fuel
  induction fuel with
  | zero => intro depth s; simp [refsGo]
  | succ fuel ih =>
    intro depth s
    rw [refsGo]
    split
    · omega
    · have h1 := refHop_steps_le E ri q depth s (refIdsOf E.store s)
      have h2 := ih (depth + 1) (refHop E ri q depth s (refIdsOf E.store s))
      omega

/-- C3 (amended): the visited set `all_followed` is monotonically
non-decreasing across hops and the loop performs at most the configured depth
cap of `MAX_REFERENCE_DEPTH = 3` hops (each appending at most one step-log
entry); the ids that a hop resolves into candidates are marked visited.  But a
raw reference string touched in a hop is marked visited only when the hop
resolves no candidates at all, so a raw reference whose resolved id differs
from its spelling is re-touched — and its target re-relevance-checked — in
later hops (see the counterexample). -/
theorem c3_reference_expansion {V : Type} (E : Engine V) (ri : RefIndex) (q : String) :
    (∀ (s : RefState) (x : String), x ∈ s.followed → x ∈ (refsLoop E ri q s).followed) ∧
    (∀ s : RefState,
      (refsLoop E ri q s).steps.length ≤ s.steps.length + MAX_REFERENCE_DEPTH) ∧
    (∀ (s : RefState) (ids : List String) (d : Nat) (k : String),
      k ∈ dkeys (resolveHopRefs E.store ri s.unresolved ids).2 →
      k ∈ (refHop E ri q d s ids).followed) := by
  refine ⟨?_, ?_, ?_⟩
  · intro s x h
    exact refsGo_followed_mono E ri q MAX_REFERENCE_DEPTH 1 s x h
  · intro s
    exact refsGo_steps_le E ri q MAX_REFERENCE_DEPTH 1 s
  · intro s ids d k hk
    simp only [refHop]
    split
    · exact mem_foldl_oadd_of_mem _ _ _ hk
    · rename_i hne
      have : (resolveHopRefs E.store ri s.unresolved ids).2 = [] := by
        cases h : (resolveHopRefs E.store ri s.unresolved ids).2 with
        | nil => rfl
        | cons a l => rw [h] at hne; simp at hne
      rw [this] at hk
      cases hk

/-- Witness for C3 (amended) on the counterexample engine. -/
theorem c3_reference_expansion_witness :
    "p_1" ∈ (refsLoop c3E c3ri "q" c3s0).followed ∧
    "p_2" ∈ (refHop c3E c3ri "q" 1 c3s0 ["p.2"]).followed := by
  have h := c3_reference_expansion c3E c3ri "q"
  exact ⟨h.1 c3s0 "p_1" (by decide), h.2.2 c3s0 ["p.2"] 1 "p_2" (by decide)⟩

/-! ## C5: determinism and idempotence of the reference resolver -/

theorem lookup_dinsert_cases {α : Type} (d : PyDict α) (k : String) (w : α)
    (x : String) (v : α) (h : dlookup (dinsert d k w) x = some v) :
    dlookup d x = some v ∨ v = w := by
  rw [dlookup_dinsert] at h
  by_cases hx : x = k
  · rw [if_pos hx] at h; exact Or.inr (by injection h with h'; exact h'.symm)
  · rw [if_neg hx] at h; exact Or.inl h

theorem lookup_dsetdefault_cases {α : Type} (d : PyDict α) (k : String) (w : α)
    (x : String) (v : α) (h : dlookup (dsetdefault d k w) x = some v) :
    dlookup d x = some v ∨ v = w := by
  rw [dlookup_dsetdefault] at h
  by_cases hx : x = k ∧ dmem d k = false
  · rw [if_pos hx] at h; exact Or.inr (by injection h with h'; exact h'.symm)
  · rw [if_neg hx] at h; exact Or.inl h

theorem refIndexStep_lookup_cases (idx : PyDict String) (key x v : String)
    (h : dlookup (refIndexStep idx key) x = some v) :
    dlookup idx x = some v ∨ v = key := by
  unfold refIndexStep at h
  by_cases hs : stripParenStr key != key
  · rw [if_pos hs] at h
    rcases lookup_dsetdefault_cases _ _ _ _ _ h with h1 | h1
    · rcases lookup_dsetdefault_cases _ _ _ _ _ h1 with h2 | h2
      · rcases lookup_dinsert_cases _ _ _ _ _ h2 with h3 | h3
        · exact lookup_dinsert_cases _ _ _ _ _ h3
        · exact Or.inr h3
      · exact Or.inr h2
    · exact Or.inr h1
  · rw [if_neg hs] at h
    rcases lookup_dinsert_cases _ _ _ _ _ h with h1 | h1
    · exact lookup_dinsert_cases _ _ _ _ _ h1
    · exact Or.inr h1

theorem refIndexFold_range (st : Store) (l : List String) :
    ∀ idx0 : PyDict String,
      (∀ y w, dlookup idx0 y = some w → w ∈ allStoreKeys st) →
      (∀ w ∈ l, w ∈ allStoreKeys st) →
      ∀ y w, dlookup (l.foldl refIndexStep idx0) y = some w → w ∈ allStoreKeys st := by
  induction l with
  | nil => intro idx0 h0 hl y w hw; exact h0 y w hw
  | cons a l ih =>
    intro idx0 h0 hl y w hw
    rw [List.foldl_cons] at hw
    refine ih (refIndexStep idx0 a) ?_ (fun w' hw' => hl w' (List.mem_cons_of_mem _ hw')) y w hw
    intro y' w' hw'
    rcases refIndexStep_lookup_cases idx0 a y' w' hw' with h' | h'
    · exact h0 y' w' h'
    · rw [h']; exact hl a (List.mem_cons_self _ _)

theorem buildRefIndex_idx_range (st : Store) (x v : String)
    (h : dlookup (buildRefIndex st).idx x = some v) : v ∈ allStoreKeys st := by
  unfold buildRefIndex at h
  exact refIndexFold_range st (allStoreKeys st) [] (fun y w hw => by cases hw)
    (fun w hw => hw) x v h

theorem resolveRefSimple_range (st : Store) (key v : String)
    (h : resolveRefSimple (buildRefIndex st) key = some v) : v ∈ allStoreKeys st := by
  unfold resolveRefSimple at h
  cases h1 : dlookup (buildRefIndex st).idx key with
  | some w =>
    rw [h1] at h; injection h with h'; rw [← h']
    exact buildRefIndex_idx_range st key w h1
  | none =>
    rw [h1] at h
    cases h2 : dlookup (buildRefIndex st).idx (replaceC '.' '_' key) with
    | some w =>
      rw [h2] at h; injection h with h'; rw [← h']
      exact buildRefIndex_idx_range st _ w h2
    | none =>
      rw [h2] at h
      exact buildRefIndex_idx_range st _ v h

theorem mem_allStoreKeys_of_sections (st : Store) (k : String)
    (h : k ∈ dkeys st.sections) : k ∈ allStoreKeys st :=
  List.mem_append.2 (Or.inl h)

theorem resolveCrossDoc_range (st : Store) (ref v : String)
    (h : resolveCrossDoc st (buildRefIndex st) ref = some v) : v ∈ allStoreKeys st := by
  unfold resolveCrossDoc at h
  cases hf : (buildRefIndex st).docPfxMap.find? (fun kv => crossDocCond ref kv.1) with
  | none => rw [hf] at h; cases h
  | some cvp =>
    rw [hf] at h
    cases cvp with
    | mk cv pfx =>
      dsimp only at h
      rcases hvr : (if crossDocRemainder ref cv != "" then
          resolveRefSimple (buildRefIndex st) (pfx ++ "_" ++ crossDocRemainder ref cv)
        else none) with _ | w
      · rw [hvr] at h
        rcases hsec : st.sections.find? (fun kv => startsWithPy pfx kv.1) with _ | kv
        · rw [hsec] at h; cases h
        · rw [hsec] at h
          injection h with h'
          rw [← h']
          exact mem_allStoreKeys_of_sections st _
            (List.mem_map.2 ⟨kv, List.mem_of_find?_eq_some hsec, rfl⟩)
      · rw [hvr] at h
        injection h with h'
        rw [← h']
        by_cases hrem : crossDocRemainder ref cv != ""
        · rw [if_pos hrem] at hvr
          exact resolveRefSimple_range st _ w hvr
        · rw [if_neg hrem] at hvr; cases hvr

theorem resolveRef_range (st : Store) (ref k : String)
    (h : resolveRef st (buildRefIndex st) ref = some k) : k ∈ allStoreKeys st := by
  unfold resolveRef at h
  cases h1 : dlookup (buildRefIndex st).idx ref with
  | some v =>
    rw [h1] at h; injection h with h'; rw [← h']
    exact buildRefIndex_idx_range st _ _ h1
  | none =>
  rw [h1] at h; dsimp only at h
  cases h2 : dlookup (buildRefIndex st).idx (replaceC '.' '_' ref) with
  | some v =>
    rw [h2] at h; injection h with h'; rw [← h']
    exact buildRefIndex_idx_range st _ _ h2
  | none =>
  rw [h2] at h; dsimp only at h
  cases h3 : dlookup (buildRefIndex st).idx (stripParenStr ref) with
  | some v =>
    rw [h3] at h; injection h with h'; rw [← h']
    exact buildRefIndex_idx_range st _ _ h3
  | none =>
  rw [h3] at h; dsimp only at h
  cases h4 : dlookup (buildRefIndex st).idx (replaceC '.' '_' (stripParenStr ref)) with
  | some v =>
    rw [h4] at h; injection h with h'; rw [← h']
    exact buildRefIndex_idx_range st _ _ h4
  | none =>
  rw [h4] at h; dsimp only at h
  cases h5 : st.documents.findSome? (fun kv => doubledPfxLookup (buildRefIndex st) ref kv.2) with
  | some v =>
    rw [h5] at h; injection h with h'; rw [← h']
    rcases List.exists_of_findSome?_eq_some h5 with ⟨kv, hkv, hfv⟩
    unfold doubledPfxLookup at hfv
    by_cases hp : startsWithPy (kv.2.keyPfx ++ "_" ++ kv.2.keyPfx) ref
    · rw [if_pos hp] at hfv
      exact buildRefIndex_idx_range st _ _ hfv
    · rw [if_neg hp] at hfv; cases hfv
  | none =>
    rw [h5] at h; dsimp only at h
    exact resolveCrossDoc_range st ref k h

theorem refIndexStep_lookup_self (idx : PyDict String) (key : String) :
    dlookup (refIndexStep idx key) key = some key := by
  unfold refIndexStep
  have h1 : dlookup (dinsert (dinsert idx key key) (replaceC '.' '_' key) key) key = some key := by
    rw [dlookup_dinsert]
    by_cases hr : key = replaceC '.' '_' key
    · rw [if_pos hr]
    · rw [if_neg hr, dlookup_dinsert, if_pos rfl]
  by_cases hs : stripParenStr key != key
  · rw [if_pos hs]
    have hmem : dmem (dsetdefault (dinsert (dinsert idx key key)
        (replaceC '.' '_' key) key) (stripParenStr key) key) key = true := by
      unfold dmem
      rw [dlookup_dsetdefault]
      by_cases hc : key = stripParenStr key ∧
          dmem (dinsert (dinsert idx key key) (replaceC '.' '_' key) key) (stripParenStr key) = false
      · rw [if_pos hc]; rfl
      · rw [if_neg hc, h1]; rfl
    rw [dlookup_dsetdefault, dlookup_dsetdefault]
    have hns : ¬(key = replaceC '.' '_' (stripParenStr key) ∧
        dmem (dsetdefault (dinsert (dinsert idx key key) (replaceC '.' '_' key) key)
          (stripParenStr key) key) (replaceC '.' '_' (stripParenStr key)) = false) := by
      rintro ⟨he, hd⟩
      rw [← he] at hd
      rw [hmem] at hd
      cases hd
    rw [if_neg hns]
    by_cases hc : key = stripParenStr key ∧
        dmem (dinsert (dinsert idx key key) (replaceC '.' '_' key) key) (stripParenStr key) = false
    · exfalso
      rcases hc with ⟨he, hd⟩
      rw [← he] at hd
      unfold dmem at hd
      rw [h1] at hd
      cases hd
    · rw [if_neg hc]
      exact h1
  · rw [if_neg hs]
    exact h1

theorem refIndexStep_preserve_self (idx : PyDict String) (w k : String)
    (hk : dlookup idx k = some k) (hcol : replaceC '.' '_' w = k → w = k) :
    dlookup (refIndexStep idx w) k = some k := by
  by_cases hwk : w = k
  · rw [hwk]; exact refIndexStep_lookup_self idx k
  · unfold refIndexStep
    have hmem : ∀ d : PyDict String, dlookup d k = some k → dmem d k = true := by
      intro d hd; unfold dmem; rw [hd]; rfl
    have h1 : dlookup (dinsert idx w w) k = some k := by
      rw [dlookup_dinsert, if_neg (fun he => hwk he.symm)]
      exact hk
    have h2 : dlookup (dinsert (dinsert idx w w) (replaceC '.' '_' w) w) k = some k := by
      rw [dlookup_dinsert]
      by_cases hr : k = replaceC '.' '_' w
      · exact absurd (hcol hr.symm) hwk
      · rw [if_neg hr]; exact h1
    by_cases hs : stripParenStr w != w
    · rw [if_pos hs]
      rw [dlookup_dsetdefault, dlookup_dsetdefault]
      by_cases hc1 : k = stripParenStr w ∧
          dmem (dinsert (dinsert idx w w) (replaceC '.' '_' w) w) (stripParenStr w) = false
      · exfalso
        rcases hc1 with ⟨he, hd⟩
        rw [← he] at hd
        rw [hmem _ h2] at hd
        cases hd
      · rw [if_neg hc1]
        by_cases hc2 : k = replaceC '.' '_' (stripParenStr w) ∧
            dmem (dsetdefault (dinsert (dinsert idx w w) (replaceC '.' '_' w) w)
              (stripParenStr w) w) (replaceC '.' '_' (stripParenStr w)) = false
        · exfalso
          rcases hc2 with ⟨he, hd⟩
          rw [← he] at hd
          have : dlookup (dsetdefault (dinsert (dinsert idx w w) (replaceC '.' '_' w) w)
              (stripParenStr w) w) k = some k := by
            rw [dlookup_dsetdefault, if_neg hc1]; exact h2
          rw [hmem _ this] at hd
          cases hd
        · rw [if_neg hc2]
          exact h2
    · rw [if_neg hs]
      exact h2

theorem refIndexFold_preserve_self (l : List String) :
    ∀ idx0 : PyDict String, dlookup idx0 k = some k →
      (∀ w ∈ l, replaceC '.' '_' w = k → w = k) →
      dlookup (l.foldl refIndexStep idx0) k = some k := by
  induction l with
  | nil => intro idx0 h0 _; exact h0
  | cons a l ih =>
    intro idx0 h0 hl
    rw [List.foldl_cons]
    exact ih (refIndexStep idx0 a)
      (refIndexStep_preserve_self idx0 a k h0 (hl a (List.mem_cons_self _ _)))
      (fun w hw => hl w (List.mem_cons_of_mem _ hw))

theorem refIndexFold_self (l : List String) :
    ∀ idx0 : PyDict String, k ∈ l → (∀ w ∈ l, replaceC '.' '_' w = k → w = k) →
      dlookup (l.foldl refIndexStep idx0) k = some k := by
  induction l with
  | nil => intro idx0 h0 _; cases h0
  | cons a l ih =>
    intro idx0 hk hl
    rw [List.foldl_cons]
    by_cases hkl : k ∈ l
    · exact ih (refIndexStep idx0 a) hkl (fun w hw => hl w (List.mem_cons_of_mem _ hw))
    · have hak : a = k := by
        rcases List.mem_cons.1 hk with h | h
        · exact h.symm
        · exact absurd h hkl
      rw [hak]
      exact refIndexFold_preserve_self l (refIndexStep idx0 k)
        (refIndexStep_lookup_self idx0 k)
        (fun w hw => hl w (List.mem_cons_of_mem _ hw))

theorem buildRefIndex_idx_self (st : Store) (hcol : noKeyCollision st) (k : String)
    (hk : k ∈ allStoreKeys st) : dlookup (buildRefIndex st).idx k = some k := by
  unfold buildRefIndex
  exact refIndexFold_self (allStoreKeys st) [] hk (fun w hw hrep => hcol w hw k hk hrep)

/-- C5 counterexample: in a store holding both `p_a_b` and `p_a.b` (same
document prefix `p`, code `EN 1990`), building the index lets
`idx["p_a.b".replace(".","_")] = "p_a.b"` clobber the entry of the real key
`p_a_b`.  The cross-document arm resolves `EN_1990` to the first section of the
document, `p_a_b` — but resolving that canonical id again returns `p_a.b`, so
`resolve` is not idempotent. -/
theorem c5_counterexample :
    resolveRef c5store (buildRefIndex c5store) "EN_1990" = some "p_a_b" ∧
    resolveRef c5store (buildRefIndex c5store) "p_a_b" = some "p_a.b" ∧
    ("p_a.b" : String) ≠ "p_a_b" := ⟨by decide, by decide, by decide⟩

/-- C5 (amended): for a fixed store, `resolve` is deterministic for the
engine instance's lifetime — the lazily built index is a pure function of the
store, so any two calls (whatever the cache state reached so far) agree — and
every resolved value is a canonical store id; `resolve(resolve(ref)) =
resolve(ref)` holds provided no store key's dot-to-underscore normalization
collides with a different store key (without that assumption idempotence
fails, see the counterexample). -/
theorem c5_resolver_deterministic_idempotent (st : Store) (c1 c2 : Option RefIndex)
    (ref : String)
    (h1 : c1 = none ∨ c1 = some (buildRefIndex st))
    (h2 : c2 = none ∨ c2 = some (buildRefIndex st)) :
    ((resolveSt st c1 ref).1 = (resolveSt st c2 ref).1) ∧
    (∀ k, (resolveSt st c1 ref).1 = some k →
      k ∈ allStoreKeys st ∧
      (noKeyCollision st → (resolveSt st c1 k).1 = some k)) := by
  have hc : ∀ c : Option RefIndex, c = none ∨ c = some (buildRefIndex st) →
      (c.getD (buildRefIndex st)) = buildRefIndex st := by
    rintro c (rfl | rfl) <;> rfl
  constructor
  · show resolveRef st (c1.getD (buildRefIndex st)) ref =
      resolveRef st (c2.getD (buildRefIndex st)) ref
    rw [hc c1 h1, hc c2 h2]
  · intro k hk
    have hk' : resolveRef st (buildRefIndex st) ref = some k := by
      rw [← hc c1 h1]; exact hk
    refine ⟨resolveRef_range st ref k hk', ?_⟩
    intro hcol
    show resolveRef st (c1.getD (buildRefIndex st)) k = some k
    rw [hc c1 h1]
    unfold resolveRef
    rw [buildRefIndex_idx_self st hcol k (resolveRef_range st ref k hk')]

/-- Witness for C5 (amended) on a collision-free store. -/
theorem c5_resolver_witness :
    (resolveSt c3store none "p.2").1 = (resolveSt c3store (some (buildRefIndex c3store)) "p.2").1 ∧
    (resolveSt c3store none "p.2").1 = some "p_2" ∧
    (resolveSt c3store none "p_2").1 = some "p_2" := by
  have h := c5_resolver_deterministic_idempotent c3store none (some (buildRefIndex c3store))
    "p.2" (Or.inl rfl) (Or.inr rfl)
  have hres : (resolveSt c3store none "p.2").1 = some "p_2" := rfl
  have hcol : noKeyCollision c3store := by
    intro w hw k hk hrep
    fin_cases hw <;> fin_cases hk <;> revert hrep <;> decide
  exact ⟨h.1, hres, (h.2 "p_2" hres).2 hcol⟩

/-! ## C6: collision of normalized document-code variants -/

theorem nat_beq_eq_decide (n m : Nat) : (n == m) = decide (n = m) := by
  by_cases h : n = m <;> simp [h]

theorem decide_or_eq (p q : Prop) [Decidable p] [Decidable q] :
    decide (p ∨ q) = (decide p || decide q) := by
  by_cases hp : p <;> by_cases hq : q <;> simp [hp, hq]

theorem decide_and_eq (p q : Prop) [Decidable p] [Decidable q] :
    decide (p ∧ q) = (decide p && decide q) := by
  by_cases hp : p <;> by_cases hq : q <;> simp [hp, hq]

theorem char_toNat_ofNat_small (n : Nat) (h : n < 55296) : (Char.ofNat n).toNat = n := by
  have hv : n.isValidChar := Or.inl h
  rw [Char.ofNat, dif_pos hv]
  simp [Char.ofNatAux, Char.toNat, UInt32.toNat, UInt32.ofNat', BitVec.toNat_ofNat]

theorem toNat_lowerC (c : Char) :
    (lowerC c).toNat = if 65 ≤ c.toNat ∧ c.toNat ≤ 90 then c.toNat + 32 else c.toNat := by
  unfold lowerC
  by_cases h : 65 ≤ c.toNat ∧ c.toNat ≤ 90
  · rw [if_pos (by simp [h.1, h.2]), if_pos h]
    exact char_toNat_ofNat_small (c.toNat + 32) (by omega)
  · rw [if_neg (by simpa [Bool.and_eq_true, decide_eq_true_eq] using h), if_neg h]

theorem isDigitC_decide (c : Char) :
    isDigitC c = decide (48 ≤ c.toNat ∧ c.toNat ≤ 57) := by
  simp [isDigitC, Bool.and_eq_true, decide_eq_true_eq]

theorem isSepC_decide (c : Char) :
    isSepC c = decide (c.toNat = 95 ∨ c.toNat = 58) := by
  rw [isSepC, nat_beq_eq_decide, nat_beq_eq_decide]
  simp only [decide_or_eq]

theorem isSpaceC_decide (c : Char) :
    isSpaceC c = decide (c.toNat = 32 ∨ c.toNat = 9 ∨ c.toNat = 10 ∨ c.toNat = 13 ∨
      c.toNat = 11 ∨ c.toNat = 12) := by
  rw [isSpaceC, nat_beq_eq_decide, nat_beq_eq_decide, nat_beq_eq_decide,
    nat_beq_eq_decide, nat_beq_eq_decide, nat_beq_eq_decide]
  simp only [decide_or_eq, Bool.or_assoc]

theorem isWordC_decide (c : Char) :
    isWordC c = decide ((65 ≤ c.toNat ∧ c.toNat ≤ 90) ∨ (97 ≤ c.toNat ∧ c.toNat ≤ 122) ∨
      (48 ≤ c.toNat ∧ c.toNat ≤ 57) ∨ c.toNat = 95) := by
  rw [isWordC, isAlphaC, isDigitC, nat_beq_eq_decide]
  simp only [decide_or_eq, decide_and_eq, Bool.or_assoc]

theorem isLowerAlphaC_decide (c : Char) :
    isLowerAlphaC c = decide (97 ≤ c.toNat ∧ c.toNat ≤ 122) := by
  simp [isLowerAlphaC, Bool.and_eq_true, decide_eq_true_eq]

theorem isSep3_decide (c : Char) :
    isSep3 c = decide (c.toNat = 95 ∨ c.toNat = 45 ∨ c.toNat = 32) := by
  rw [isSep3, nat_beq_eq_decide, nat_beq_eq_decide, nat_beq_eq_decide]
  simp only [decide_or_eq, Bool.or_assoc]

theorem isDigitC_lowerC (c : Char) : isDigitC (lowerC c) = isDigitC c := by
  rw [isDigitC_decide, isDigitC_decide, toNat_lowerC]
  by_cases h : 65 ≤ c.toNat ∧ c.toNat ≤ 90
  · rw [if_pos h, decide_eq_decide]; omega
  · rw [if_neg h]

theorem isSepC_lowerC (c : Char) : isSepC (lowerC c) = isSepC c := by
  rw [isSepC_decide, isSepC_decide, toNat_lowerC]
  by_cases h : 65 ≤ c.toNat ∧ c.toNat ≤ 90
  · rw [if_pos h, decide_eq_decide]; omega
  · rw [if_neg h]

theorem isSpaceC_lowerC (c : Char) : isSpaceC (lowerC c) = isSpaceC c := by
  rw [isSpaceC_decide, isSpaceC_decide, toNat_lowerC]
  by_cases h : 65 ≤ c.toNat ∧ c.toNat ≤ 90
  · rw [if_pos h, decide_eq_decide]; omega
  · rw [if_neg h]

theorem toNat_lowerC_43 (c : Char) : (lowerC c).toNat = 43 ↔ c.toNat = 43 := by
  rw [toNat_lowerC]
  by_cases h : 65 ≤ c.toNat ∧ c.toNat ≤ 90
  · rw [if_pos h]
    constructor <;> (intro h'; omega)
  · rw [if_neg h]

theorem isWordC_lowerC_of (c : Char) (h : isWordC c = true) : isWordC (lowerC c) = true := by
  rw [isWordC_decide, decide_eq_true_eq] at h ⊢
  rw [toNat_lowerC]
  by_cases h' : 65 ≤ c.toNat ∧ c.toNat ≤ 90
  · rw [if_pos h']; omega
  · rw [if_neg h']; exact h

theorem lowerC_sep3_fix (c : Char) (h : isSep3 c = true) : lowerC c = c := by
  rw [isSep3_decide, decide_eq_true_eq] at h
  unfold lowerC
  rw [if_neg (by simp [Bool.and_eq_true, decide_eq_true_eq]; omega)]

theorem isSepC_toNat (c : Char) (h : isSepC c = true) : c.toNat = 95 ∨ c.toNat = 58 := by
  rw [isSepC_decide, decide_eq_true_eq] at h
  exact h

theorem isDigitC_toNat (c : Char) (h : isDigitC c = true) : 48 ≤ c.toNat ∧ c.toNat ≤ 57 := by
  rw [isDigitC_decide, decide_eq_true_eq] at h
  exact h

theorem isSepC_not_keep (c : Char) (h : isSepC c = true) :
    (isLowerAlphaC c || isDigitC c) = false := by
  have h1 := isSepC_toNat c h
  rw [isLowerAlphaC_decide, isDigitC_decide, Bool.or_eq_false_iff, decide_eq_false_iff_not,
    decide_eq_false_iff_not]
  omega

theorem isSep3_not_keep (c : Char) (h : isSep3 c = true) :
    (isLowerAlphaC c || isDigitC c) = false := by
  rw [isSep3_decide, decide_eq_true_eq] at h
  rw [isLowerAlphaC_decide, isDigitC_decide, Bool.or_eq_false_iff, decide_eq_false_iff_not,
    decide_eq_false_iff_not]
  omega

theorem isSpaceC_not_keep (c : Char) (h : isSpaceC c = true) :
    (isLowerAlphaC c || isDigitC c) = false := by
  rw [isSpaceC_decide, decide_eq_true_eq] at h
  rw [isLowerAlphaC_decide, isDigitC_decide, Bool.or_eq_false_iff, decide_eq_false_iff_not,
    decide_eq_false_iff_not]
  omega

theorem plusWordTail_dest (l : List Char) (h : plusWordTail l = true) :
    l = [] ∨ ∃ p w, l = p :: w ∧ p.toNat = 43 ∧ w ≠ [] ∧ w.all isWordC = true := by
  cases l with
  | nil => exact Or.inl rfl
  | cons p w =>
    right
    simp only [plusWordTail, Bool.and_eq_true, Bool.not_eq_true'] at h
    refine ⟨p, w, rfl, ?_, ?_, h.2⟩
    · have h1 := h.1.1
      rwa [nat_beq_eq_decide, decide_eq_true_eq] at h1
    · intro hw
      subst hw
      simp at h

theorem fourDigitsThen_dest (l : List Char) (h : fourDigitsThen l = true) :
    ∃ a b c d rest, l = a :: b :: c :: d :: rest ∧ isDigitC a = true ∧ isDigitC b = true ∧
      isDigitC c = true ∧ isDigitC d = true ∧ plusWordTail rest = true := by
  match l with
  | [] => simp [fourDigitsThen] at h
  | [_] => simp [fourDigitsThen] at h
  | [_, _] => simp [fourDigitsThen] at h
  | [_, _, _] => simp [fourDigitsThen] at h
  | a :: b :: c :: d :: rest =>
    simp only [fourDigitsThen, Bool.and_eq_true] at h
    exact ⟨a, b, c, d, rest, rfl, h.1.1.1.1, h.1.1.1.2, h.1.1.2, h.1.2, h.2⟩

theorem yearFrom_dest (l : List Char) (h : yearFrom l = true) :
    ∃ spre rest, l = spre ++ rest ∧
      (spre = [] ∨ ∃ s, spre = [s] ∧ isSepC s = true) ∧ fourDigitsThen rest = true := by
  cases l with
  | nil => simp [yearFrom] at h
  | cons c r =>
    rw [yearFrom] at h
    by_cases hc : isSepC c = true
    · rw [if_pos hc] at h
      exact ⟨[c], r, rfl, Or.inr ⟨c, rfl, hc⟩, h⟩
    · rw [if_neg hc] at h
      exact ⟨[], c :: r, rfl, Or.inl rfl, h⟩

theorem yearFrom_ne_nil (l : List Char) (h : yearFrom l = true) : l ≠ [] := by
  intro hl
  subst hl
  simp [yearFrom] at h

theorem notSpace_of_toNat (y : Char)
    (hy : (48 ≤ y.toNat ∧ y.toNat ≤ 57) ∨ y.toNat = 95 ∨ y.toNat = 58 ∨ y.toNat = 43 ∨
      isWordC y = true) : (!isSpaceC y) = true := by
  rw [isWordC_decide, decide_eq_true_eq] at hy
  rw [Bool.not_eq_true', isSpaceC_decide, decide_eq_false_iff_not]
  omega

theorem yearFrom_no_space (l : List Char) (h : yearFrom l = true) :
    l.all (fun c => !isSpaceC c) = true := by
  obtain ⟨spre, rest, hl, hspre, hfd⟩ := yearFrom_dest l h
  obtain ⟨a, b, c, d, r2, hr, ha, hb, hc, hd, hpt⟩ := fourDigitsThen_dest rest hfd
  subst hl hr
  rw [List.all_eq_true]
  intro x hx
  rcases List.mem_append.mp hx with hx1 | hx2
  · rcases hspre with hnil | ⟨sc, hsc, hsep⟩
    · subst hnil; simp at hx1
    · subst hsc
      have hxe := List.mem_singleton.mp hx1
      subst hxe
      exact notSpace_of_toNat x (Or.inr (by
        rcases isSepC_toNat x hsep with h1 | h1
        · exact Or.inl h1
        · exact Or.inr (Or.inl h1)))
  · simp only [List.mem_cons] at hx2
    rcases hx2 with rfl | rfl | rfl | rfl | hx2
    · exact notSpace_of_toNat x (Or.inl (isDigitC_toNat x ha))
    · exact notSpace_of_toNat x (Or.inl (isDigitC_toNat x hb))
    · exact notSpace_of_toNat x (Or.inl (isDigitC_toNat x hc))
    · exact notSpace_of_toNat x (Or.inl (isDigitC_toNat x hd))
    · rcases plusWordTail_dest r2 hpt with hnil | ⟨p, w, hpw, hp, _, hw⟩
      · subst hnil; simp at hx2
      · subst hpw
        rcases List.mem_cons.mp hx2 with rfl | hx3
        · exact notSpace_of_toNat x (Or.inr (Or.inr (Or.inr (Or.inl hp))))
        · exact notSpace_of_toNat x (Or.inr (Or.inr (Or.inr (Or.inr
            (List.all_eq_true.mp hw x hx3)))))

theorem split_at_plus (A : List Char) :
    ∀ (C : List Char) (x y : Char) (B D : List Char),
    A ++ x :: B = C ++ y :: D → (∀ a ∈ A, a.toNat ≠ 43) → (∀ c ∈ C, c.toNat ≠ 43) →
    x.toNat = 43 → y.toNat = 43 → A = C ∧ B = D := by
  induction A with
  | nil =>
    intro C x y B D h hA hC hx hy
    cases C with
    | nil =>
      simp only [List.nil_append] at h
      injection h with h1 h2
      exact ⟨rfl, h2⟩
    | cons c C2 =>
      simp only [List.nil_append, List.cons_append] at h
      injection h with h1 h2
      subst h1
      exact absurd hx (hC x (List.mem_cons_self x C2))
  | cons a A2 ih =>
    intro C x y B D h hA hC hx hy
    cases C with
    | nil =>
      simp only [List.cons_append, List.nil_append] at h
      injection h with h1 h2
      subst h1
      exact absurd hy (hA a (List.mem_cons_self a A2))
    | cons c C2 =>
      simp only [List.cons_append] at h
      injection h with h1 h2
      subst h1
      obtain ⟨hAC, hBD⟩ := ih C2 x y B D h2
        (fun z hz => hA z (List.mem_cons_of_mem a hz))
        (fun z hz => hC z (List.mem_cons_of_mem a hz)) hx hy
      exact ⟨by rw [hAC], hBD⟩

theorem fourDigits_append_eq_nil (X S : List Char)
    (hX : ∀ a ∈ X, a.toNat ≠ 43) (hS : yearFrom S = true)
    (h : fourDigitsThen (X ++ S) = true) : X = [] := by
  obtain ⟨a, b, c, d, rest, heq, ha, hb, hc, hd, hpt⟩ := fourDigitsThen_dest _ h
  obtain ⟨spre, r2, hSeq, hspre, hfd2⟩ := yearFrom_dest S hS
  obtain ⟨a2, b2, c2, d2, r3, hr2, ha2, hb2, hc2, hd2, hpt2⟩ := fourDigitsThen_dest r2 hfd2
  have hsprefree : ∀ z ∈ spre, z.toNat ≠ 43 := by
    intro z hz
    rcases hspre with hnil | ⟨sc, hsc, hsep⟩
    · subst hnil; simp at hz
    · subst hsc
      have hze := List.mem_singleton.mp hz
      subst hze
      rcases isSepC_toNat z hsep with h1 | h1 <;> omega
  rcases plusWordTail_dest rest hpt with hnil | ⟨p, w, hpw, hp, _, _⟩
  · subst hnil
    have hlen := congrArg List.length heq
    simp only [List.length_append, List.length_cons, List.length_nil] at hlen
    have hlenS := congrArg List.length hSeq
    have hlenr2 := congrArg List.length hr2
    simp only [List.length_append, List.length_cons] at hlenS hlenr2
    have : X.length = 0 := by omega
    exact List.eq_nil_of_length_eq_zero this
  · subst hpw
    rcases plusWordTail_dest r3 hpt2 with hnil2 | ⟨p2, w2, hpw2, hp2, _, _⟩
    · subst hnil2
      have hmem : p ∈ X ++ S := by
        rw [heq]
        simp
      rcases List.mem_append.mp hmem with hmx | hms
      · exact absurd hp (hX p hmx)
      · rw [hSeq, hr2] at hms
        rcases List.mem_append.mp hms with hms1 | hms2
        · exact absurd hp (hsprefree p hms1)
        · simp only [List.mem_cons, List.not_mem_nil, or_false] at hms2
          rcases hms2 with rfl | rfl | rfl | rfl
          · have := isDigitC_toNat p ha2; omega
          · have := isDigitC_toNat p hb2; omega
          · have := isDigitC_toNat p hc2; omega
          · have := isDigitC_toNat p hd2; omega
    · subst hpw2
      have he : [a, b, c, d] ++ p :: w = (X ++ spre ++ [a2, b2, c2, d2]) ++ p2 :: w2 := by
        rw [hSeq, hr2] at heq
        simp only [List.cons_append, List.nil_append, List.append_assoc]
        exact heq.symm
      have hfree1 : ∀ z ∈ ([a, b, c, d] : List Char), z.toNat ≠ 43 := by
        intro z hz
        simp only [List.mem_cons, List.not_mem_nil, or_false] at hz
        rcases hz with rfl | rfl | rfl | rfl
        · have := isDigitC_toNat z ha; omega
        · have := isDigitC_toNat z hb; omega
        · have := isDigitC_toNat z hc; omega
        · have := isDigitC_toNat z hd; omega
      have hfree2 : ∀ z ∈ X ++ spre ++ [a2, b2, c2, d2], z.toNat ≠ 43 := by
        intro z hz
        rcases List.mem_append.mp hz with hz1 | hz2
        · rcases List.mem_append.mp hz1 with hz3 | hz4
          · exact hX z hz3
          · exact hsprefree z hz4
        · simp only [List.mem_cons, List.not_mem_nil, or_false] at hz2
          rcases hz2 with rfl | rfl | rfl | rfl
          · have := isDigitC_toNat z ha2; omega
          · have := isDigitC_toNat z hb2; omega
          · have := isDigitC_toNat z hc2; omega
          · have := isDigitC_toNat z hd2; omega
      obtain ⟨hAC, _⟩ := split_at_plus [a, b, c, d] (X ++ spre ++ [a2, b2, c2, d2])
        p p2 w w2 he hfree1 hfree2 hp hp2
      have hlen := congrArg List.length hAC
      have hlspre : spre.length ≤ 1 := by
        rcases hspre with hnil | ⟨sc, hsc, _⟩
        · subst hnil; simp
        · subst hsc; simp
      simp only [List.length_append, List.length_cons, List.length_nil] at hlen
      have : X.length = 0 := by omega
      exact List.eq_nil_of_length_eq_zero this

theorem yearFrom_crossing (T S : List Char) (hT : T ≠ [])
    (hTfree : ∀ a ∈ T, a.toNat ≠ 43) (hS : yearFrom S = true)
    (h : yearFrom (T ++ S) = true) : ∃ t, T = [t] ∧ isSepC t = true := by
  cases T with
  | nil => exact absurd rfl hT
  | cons t T2 =>
    rw [List.cons_append, yearFrom] at h
    by_cases hsep : isSepC t = true
    · rw [if_pos hsep] at h
      have hT2 : T2 = [] :=
        fourDigits_append_eq_nil T2 S (fun z hz => hTfree z (List.mem_cons_of_mem t hz)) hS h
      exact ⟨t, by rw [hT2], hsep⟩
    · rw [if_neg hsep] at h
      have : t :: T2 = [] :=
        fourDigits_append_eq_nil (t :: T2) S hTfree hS (by rw [List.cons_append]; exact h)
      simp at this

theorem findYear_append (S : List Char) (hS : yearFrom S = true) :
    ∀ (F : List Char), (∀ a ∈ F, a.toNat ≠ 43) → ∀ (i : Nat),
    ∃ p, findYearPosAux (F ++ S) i = some p ∧ i ≤ p ∧ p - i ≤ F.length ∧
      onlyAn ((F ++ S).take (p - i)) = onlyAn F := by
  intro F
  induction F with
  | nil =>
    intro _ i
    cases S with
    | nil => exact absurd rfl (yearFrom_ne_nil [] hS)
    | cons c r =>
      refine ⟨i, ?_, Nat.le_refl i, by simp, by simp [onlyAn]⟩
      rw [List.nil_append, findYearPosAux, if_pos hS]
  | cons a F2 ih =>
    intro hfree i
    by_cases hy : yearFrom ((a :: F2) ++ S) = true
    · obtain ⟨t, hT, hsep⟩ := yearFrom_crossing (a :: F2) S (List.cons_ne_nil a F2) hfree hS hy
      injection hT with h1 h2
      subst h1 h2
      refine ⟨i, ?_, Nat.le_refl i, by simp, ?_⟩
      · rw [List.cons_append, findYearPosAux, if_pos (by rw [← List.cons_append]; exact hy)]
      · simp only [Nat.sub_self, List.take_zero]
        rw [onlyAn, onlyAn, List.filter_cons, List.filter_nil]
        rw [if_neg (by rw [isSepC_not_keep a hsep]; exact Bool.false_ne_true)]
    · obtain ⟨p, hfind, hip, hlen, honly⟩ :=
        ih (fun z hz => hfree z (List.mem_cons_of_mem a hz)) (i + 1)
      refine ⟨p, ?_, by omega, ?_, ?_⟩
      · rw [List.cons_append, findYearPosAux,
          if_neg (by rw [← List.cons_append]; exact hy), hfind]
      · simp only [List.length_cons]
        omega
      · have hpi : p - i = (p - (i + 1)) + 1 := by omega
        rw [List.cons_append, hpi, List.take_succ_cons]
        rw [onlyAn, onlyAn, List.filter_cons, List.filter_cons]
        rw [onlyAn, onlyAn] at honly
        split
        · rw [honly]
        · exact honly

theorem onlyAn_stripYear_append (F S : List Char) (hfree : ∀ a ∈ F, a.toNat ≠ 43)
    (hS : yearFrom S = true) : onlyAn (stripYearCs (F ++ S)) = onlyAn F := by
  obtain ⟨p, hfind, _, _, honly⟩ := findYear_append S hS F hfree 0
  rw [stripYearCs, hfind]
  simpa using honly

theorem onlyAn_dropWhile_space (l : List Char) :
    onlyAn (l.dropWhile isSpaceC) = onlyAn l := by
  induction l with
  | nil => rfl
  | cons a l2 ih =>
    by_cases ha : isSpaceC a = true
    · rw [List.dropWhile_cons_of_pos ha, ih, onlyAn, onlyAn, List.filter_cons,
        if_neg (by rw [isSpaceC_not_keep a ha]; exact Bool.false_ne_true)]
    · rw [List.dropWhile_cons_of_neg (by simpa using ha)]

theorem onlyAn_reverse (l : List Char) : onlyAn l.reverse = (onlyAn l).reverse := by
  rw [onlyAn, onlyAn, List.filter_reverse]

theorem onlyAn_stripCs (l : List Char) : onlyAn (stripCs l) = onlyAn l := by
  rw [stripCs, onlyAn_reverse, onlyAn_dropWhile_space, onlyAn_reverse,
    List.reverse_reverse, onlyAn_dropWhile_space]

theorem dropWhile_append_cons (p : Char → Bool) (A : List Char) (x : Char) (S : List Char)
    (hx : p x = false) : (A ++ x :: S).dropWhile p = A.dropWhile p ++ x :: S := by
  induction A with
  | nil =>
    rw [List.nil_append, List.dropWhile_cons_of_neg (by simp [hx]), List.dropWhile_nil,
      List.nil_append]
  | cons a A2 ih =>
    by_cases ha : p a = true
    · rw [List.cons_append, List.dropWhile_cons_of_pos ha, List.dropWhile_cons_of_pos ha, ih]
    · rw [List.cons_append, List.dropWhile_cons_of_neg (by simpa using ha),
        List.dropWhile_cons_of_neg (by simpa using ha), List.cons_append]

theorem stripCs_append (A : List Char) (x : Char) (S2 : List Char)
    (hall : ((x :: S2).all (fun c => !isSpaceC c)) = true) :
    stripCs (A ++ x :: S2) = A.dropWhile isSpaceC ++ x :: S2 := by
  have hx : isSpaceC x = false := by
    have := List.all_eq_true.mp hall x (List.mem_cons_self x S2)
    simpa using this
  rw [stripCs, dropWhile_append_cons isSpaceC A x S2 hx]
  obtain ⟨y, ys, hrev⟩ : ∃ y ys, (x :: S2).reverse = y :: ys := by
    cases hr : (x :: S2).reverse with
    | nil =>
      have := congrArg List.length hr
      simp at this
    | cons y ys => exact ⟨y, ys, rfl⟩
  have hy : isSpaceC y = false := by
    have hmem : y ∈ (x :: S2).reverse := by rw [hrev]; exact List.mem_cons_self y ys
    have := List.all_eq_true.mp hall y (List.mem_reverse.mp hmem)
    simpa using this
  rw [List.reverse_append, hrev, List.cons_append,
    List.dropWhile_cons_of_neg (by simp [hy]), ← List.cons_append, ← hrev,
    List.reverse_append, List.reverse_reverse, List.reverse_reverse]

theorem plusWordTail_lower (l : List Char) (h : plusWordTail l = true) :
    plusWordTail (l.map lowerC) = true := by
  cases l with
  | nil => rfl
  | cons p w =>
    simp only [plusWordTail, Bool.and_eq_true, Bool.not_eq_true'] at h
    have hp : (p.toNat == 43) = true := h.1.1
    rw [nat_beq_eq_decide, decide_eq_true_eq] at hp
    simp only [List.map_cons, plusWordTail, Bool.and_eq_true, Bool.not_eq_true']
    refine ⟨⟨?_, ?_⟩, ?_⟩
    · rw [nat_beq_eq_decide, decide_eq_true_eq]
      exact (toNat_lowerC_43 p).mpr hp
    · cases w with
      | nil => exact absurd h.1.2 (by simp)
      | cons y ys => rfl
    · rw [List.all_eq_true]
      intro z hz
      obtain ⟨z0, hz0, hze⟩ := List.mem_map.mp hz
      subst hze
      exact isWordC_lowerC_of z0 (List.all_eq_true.mp h.2 z0 hz0)

theorem fourDigitsThen_lower (l : List Char) (h : fourDigitsThen l = true) :
    fourDigitsThen (l.map lowerC) = true := by
  obtain ⟨a, b, c, d, rest, hl, ha, hb, hc, hd, hpt⟩ := fourDigitsThen_dest l h
  subst hl
  simp only [List.map_cons, fourDigitsThen, Bool.and_eq_true]
  rw [isDigitC_lowerC, isDigitC_lowerC, isDigitC_lowerC, isDigitC_lowerC]
  exact ⟨⟨⟨⟨ha, hb⟩, hc⟩, hd⟩, plusWordTail_lower rest hpt⟩

theorem yearFrom_lower (l : List Char) (h : yearFrom l = true) :
    yearFrom (l.map lowerC) = true := by
  cases l with
  | nil => simp [yearFrom] at h
  | cons c r =>
    rw [yearFrom] at h
    simp only [List.map_cons, yearFrom, isSepC_lowerC]
    by_cases hc : isSepC c = true
    · rw [if_pos hc] at h ⊢
      exact fourDigitsThen_lower r h
    · rw [if_neg hc] at h ⊢
      have := fourDigitsThen_lower (c :: r) h
      simpa using this

theorem onlyAn_sepEquiv : ∀ l1 l2 : List Char, sepEquivCs l1 l2 = true →
    onlyAn (l1.map lowerC) = onlyAn (l2.map lowerC) := by
  intro l1
  induction l1 with
  | nil =>
    intro l2 h
    cases l2 with
    | nil => rfl
    | cons b bs => simp [sepEquivCs] at h
  | cons a as ih =>
    intro l2 h
    cases l2 with
    | nil => simp [sepEquivCs] at h
    | cons b bs =>
      simp only [sepEquivCs, Bool.and_eq_true, Bool.or_eq_true] at h
      have hrec := ih bs h.2
      simp only [List.map_cons, onlyAn, List.filter_cons]
      rw [onlyAn, onlyAn] at hrec
      rcases h.1 with hab | hsep
      · have : a = b := eq_of_beq hab
        subst this
        split
        · rw [hrec]
        · exact hrec
      · rw [lowerC_sep3_fix a hsep.1, lowerC_sep3_fix b hsep.2]
        rw [if_neg (by rw [isSep3_not_keep a hsep.1]; exact Bool.false_ne_true),
          if_neg (by rw [isSep3_not_keep b hsep.2]; exact Bool.false_ne_true)]
        exact hrec

theorem onlyAnH_replace_list (l : List Char) :
    onlyAnH (l.map (fun c => if c == '-' then '_' else c)) = onlyAn l := by
  induction l with
  | nil => rfl
  | cons a l2 ih =>
    simp only [List.map_cons]
    rw [onlyAnH, onlyAn, List.filter_cons, List.filter_cons]
    rw [onlyAnH, onlyAn] at ih
    by_cases ha : (a == '-') = true
    · have hae : a = '-' := eq_of_beq ha
      subst hae
      rw [if_pos ha]
      rw [if_neg (by decide), if_neg (by decide)]
      exact ih
    · rw [if_neg ha]
      have hk : (isLowerAlphaC a || isDigitC a || (a == '-')) =
          (isLowerAlphaC a || isDigitC a) := by
        rw [Bool.eq_false_iff.mpr ha, Bool.or_false]
      by_cases hkeep : (isLowerAlphaC a || isDigitC a) = true
      · rw [if_pos (by rw [hk]; exact hkeep), if_pos hkeep, ih]
      · rw [if_neg (by rw [hk]; exact hkeep), if_neg hkeep]
        exact ih

theorem oadd_mem_self (s : List String) (x : String) : x ∈ oadd s x := by
  rw [oadd]
  split
  · assumption
  · exact List.mem_append_right s (List.mem_singleton.mpr rfl)

theorem oadd_mem_mono (s : List String) (x y : String) (h : x ∈ s) : x ∈ oadd s y := by
  rw [oadd]
  split
  · exact h
  · exact List.mem_append_left [y] h

theorem mem_foldl_of_mem_acc (step : List String → String → List String)
    (hmono : ∀ acc y x, x ∈ acc → x ∈ step acc y) :
    ∀ (l acc : List String) (x : String), x ∈ acc → x ∈ l.foldl step acc := by
  intro l
  induction l with
  | nil => intro acc x hx; simpa using hx
  | cons y l2 ih => intro acc x hx; exact ih (step acc y) x (hmono acc y x hx)

theorem mem_foldl_of_mem_list (step : List String → String → List String)
    (f : String → String) (hmono : ∀ acc y x, x ∈ acc → x ∈ step acc y)
    (hput : ∀ acc v, f v ∈ step acc v) :
    ∀ (l acc : List String) (v : String), v ∈ l → f v ∈ l.foldl step acc := by
  intro l
  induction l with
  | nil => intro acc v hv; simp at hv
  | cons y l2 ih =>
    intro acc v hv
    rcases List.mem_cons.mp hv with rfl | hv2
    · exact mem_foldl_of_mem_acc step hmono l2 (step acc v) (f v) (hput acc v)
    · exact ih (step acc y) v hv2

theorem cvStep1_mono (acc : List String) (y x : String) (h : x ∈ acc) : x ∈ cvStep1 acc y := by
  rw [cvStep1]
  exact oadd_mem_mono _ _ _ (oadd_mem_mono _ _ _ (oadd_mem_mono _ _ _
    (oadd_mem_mono _ _ _ (oadd_mem_mono _ _ _ h))))

theorem cvStep1_put (acc : List String) (v : String) :
    replaceC '-' '_' v ∈ cvStep1 acc v := by
  rw [cvStep1]
  exact oadd_mem_mono _ _ _ (oadd_mem_mono _ _ _ (oadd_mem_mono _ _ _ (oadd_mem_self _ _)))

theorem cvStep2_mono (acc : List String) (y x : String) (h : x ∈ acc) : x ∈ cvStep2 acc y := by
  rw [cvStep2]
  exact oadd_mem_mono _ _ _ h

theorem cvStep2_put (acc : List String) (v : String) :
    ofCs (onlyAnH (toCs v)) ∈ cvStep2 acc v := by
  rw [cvStep2]
  exact oadd_mem_self _ _

theorem codeVariants_eq (code : String) :
    codeVariants code =
      ((cvBase code).foldl cvStep1 (cvBase code)).foldl cvStep2
        ((cvBase code).foldl cvStep1 (cvBase code)) := rfl

theorem mem_codeVariants_base (code v : String) (hv : v ∈ cvBase code) :
    ofCs (onlyAn (toCs v)) ∈ codeVariants code := by
  rw [codeVariants_eq]
  have h1 : replaceC '-' '_' v ∈ (cvBase code).foldl cvStep1 (cvBase code) :=
    mem_foldl_of_mem_list cvStep1 (fun w => replaceC '-' '_' w) cvStep1_mono cvStep1_put
      (cvBase code) (cvBase code) v hv
  have h2 : (fun w => ofCs (onlyAnH (toCs w))) (replaceC '-' '_' v) ∈
      ((cvBase code).foldl cvStep1 (cvBase code)).foldl cvStep2
        ((cvBase code).foldl cvStep1 (cvBase code)) :=
    mem_foldl_of_mem_list cvStep2 (fun w => ofCs (onlyAnH (toCs w))) cvStep2_mono cvStep2_put
      _ _ (replaceC '-' '_' v) h1
  have h3 : (fun w => ofCs (onlyAnH (toCs w))) (replaceC '-' '_' v) =
      ofCs (onlyAn (toCs v)) := by
    show ofCs (onlyAnH (toCs (replaceC '-' '_' v))) = ofCs (onlyAn (toCs v))
    rw [show toCs (replaceC '-' '_' v) =
      (toCs v).map (fun c => if c == '-' then '_' else c) from rfl]
    rw [onlyAnH_replace_list]
  rwa [h3] at h2

theorem mem_cv_c (code : String) :
    ofCs (onlyAn (toCs (cvC code))) ∈ codeVariants code :=
  mem_codeVariants_base code (cvC code)
    (oadd_mem_mono _ _ _ (oadd_mem_self [] (cvC code)))

theorem mem_cv_ny (code : String) :
    ofCs (onlyAn (stripYearCs (toCs (cvC code)))) ∈ codeVariants code :=
  mem_codeVariants_base code (cvNy code) (oadd_mem_self _ _)

theorem toCs_string_append (s t : String) : toCs (s ++ t) = toCs s ++ toCs t := by
  cases s with
  | mk d1 =>
    cases t with
    | mk d2 => rfl

/-- C6 counterexample: the codes `x2005+` and `x2005+_2004` differ only by the
trailing year suffix `_2004` (which matches the year/amendment pattern
`[_:]?\d{4}(\+\w+)?$`), yet their normalized variant sets are disjoint: on the
longer code the leftmost-match semantics of `re.sub` strips from the earlier
`2005+_2004` match, producing `x`-based variants, while the shorter code keeps
its `+` and never produces them.  So the claimed collision fails. -/
theorem c6_counterexample :
    yearFrom (toCs "_2004") = true ∧
    ("x2005+_2004" : String) = "x2005+" ++ "_2004" ∧
    ((codeVariants "x2005+").all
      (fun v => !((codeVariants "x2005+_2004").contains v))) = true :=
  ⟨by decide, by decide, by decide⟩

/-- C6 (amended): for codes that differ only by separator characters
(underscore, hyphen, space), the normalized variant sets always overlap; for a
code extended by a trailing year/amendment suffix, they overlap provided the
base code contains no `+` character (otherwise the leftmost year-pattern match
of `re.sub` can land inside the base code, as the counterexample shows).  The
shared variant is the fully alphanumeric form of the lowered base code. -/
theorem c6_code_variants_overlap (c1 c2 : String)
    (h : sepEquiv c1 c2 = true ∨
      (noPlus c1 = true ∧ ∃ suf, yearFrom (toCs suf) = true ∧ c2 = c1 ++ suf)) :
    ∃ v, v ∈ codeVariants c1 ∧ v ∈ codeVariants c2 := by
  refine ⟨ofCs (onlyAn ((toCs c1).map lowerC)), ?_, ?_⟩
  · have hm1 : ofCs (onlyAn (stripCs ((toCs c1).map lowerC))) ∈ codeVariants c1 :=
      mem_cv_c c1
    rwa [onlyAn_stripCs] at hm1
  · rcases h with hsep | ⟨hplus, suf, hyear, hc2⟩
    · have hm2 : ofCs (onlyAn (stripCs ((toCs c2).map lowerC))) ∈ codeVariants c2 :=
        mem_cv_c c2
      rw [onlyAn_stripCs] at hm2
      rw [onlyAn_sepEquiv (toCs c1) (toCs c2) hsep]
      exact hm2
    · subst hc2
      have hSl : yearFrom ((toCs suf).map lowerC) = true := yearFrom_lower _ hyear
      have hnos : ((toCs suf).map lowerC).all (fun c => !isSpaceC c) = true :=
        yearFrom_no_space _ hSl
      obtain ⟨x, S2, hxs⟩ : ∃ x S2, (toCs suf).map lowerC = x :: S2 := by
        cases hc : (toCs suf).map lowerC with
        | nil => exact absurd hc (yearFrom_ne_nil _ hSl)
        | cons x S2 => exact ⟨x, S2, rfl⟩
      rw [hxs] at hSl hnos
      have hstrip : toCs (cvC (c1 ++ suf)) =
          (((toCs c1).map lowerC).dropWhile isSpaceC) ++ x :: S2 := by
        show stripCs ((toCs (c1 ++ suf)).map lowerC) = _
        rw [toCs_string_append, List.map_append, hxs]
        exact stripCs_append _ x S2 hnos
      have hfree : ∀ a ∈ ((toCs c1).map lowerC).dropWhile isSpaceC, a.toNat ≠ 43 := by
        intro a ha
        have ha2 : a ∈ (toCs c1).map lowerC :=
          (List.dropWhile_sublist isSpaceC).subset ha
        obtain ⟨b, hb, hbe⟩ := List.mem_map.mp ha2
        subst hbe
        have hb43 := List.all_eq_true.mp hplus b hb
        simp only [bne_iff_ne, ne_eq] at hb43
        intro hcontra
        exact hb43 ((toNat_lowerC_43 b).mp hcontra)
      have hm2 : ofCs (onlyAn (stripYearCs (toCs (cvC (c1 ++ suf))))) ∈
          codeVariants (c1 ++ suf) := mem_cv_ny (c1 ++ suf)
      rw [hstrip, onlyAn_stripYear_append _ _ hfree hSl, onlyAn_dropWhile_space] at hm2
      exact hm2

/-- C6 witness: concrete instances of both hypothesis branches — the
separator-equivalent pair `en_1990` / `en 1990`, and the `+`-free code `en`
extended by the year/amendment suffix `:2005+A1` — each yield overlapping
variant sets. -/
theorem c6_code_variants_overlap_witness :
    (∃ v, v ∈ codeVariants "en_1990" ∧ v ∈ codeVariants "en 1990") ∧
    (∃ v, v ∈ codeVariants "en" ∧ v ∈ codeVariants ("en" ++ ":2005+A1")) :=
  ⟨c6_code_variants_overlap "en_1990" "en 1990" (Or.inl (by decide)),
   c6_code_variants_overlap "en" ("en" ++ ":2005+A1")
     (Or.inr ⟨by decide, ":2005+A1", by decide, rfl⟩)⟩

/-! ## C7: run-to-run determinism of `query` -/

/-- C7 counterexample: two runs of `query` with identical input and identical
(deterministic) LLM/embedding/vector-index collaborators, differing only in
the wall-clock readings the runs observe, produce different output objects:
the `timings` maps differ (here on the chat path), even though every other
field agrees.  The clock is not among the mocked collaborators, so the claim
that the whole output objects (timings included) coincide is false. -/
theorem c7_counterexample :
    (query c7E (fun _ => 0) "hi" none).timings ≠ (query c7E (fun n => n) "hi" none).timings ∧
    (query c7E (fun _ => 0) "hi" none).answer = (query c7E (fun n => n) "hi" none).answer :=
  ⟨by decide, rfl⟩

/-- C7 (amended): given deterministic LLM, embedding and vector-index
collaborators, two runs of `query` with identical input produce identical
`answer`, `references`, `steps` and `missing_documents`, whatever wall-clock
readings each run observes; the `timings` map — and hence the entire output
object — also coincides whenever the two runs observe the same clock. -/
theorem c7_deterministic_modulo_clock {V : Type} (E : Engine V) (qt : String)
    (msgs : Option (List Msg)) :
    (∀ c1 c2 : Nat → ℚ, stripTimings (query E c1 qt msgs) = stripTimings (query E c2 qt msgs)) ∧
    (∀ c1 c2 : Nat → ℚ, c1 = c2 → query E c1 qt msgs = query E c2 qt msgs) := by
  constructor
  · intro c1 c2
    by_cases hc : classifyIntent E.gemini (msgsOf qt msgs) == "chat"
    · simp [query, stripTimings, hc]
    · by_cases he : (buildCandidates E.store (dedupF
        ((E.pinecone.search (E.gemini.embedQuery qt) 10).map (·.id) ++
          keywordSearch E.store (expandKeywordsKV E.store (extractKeywords E.gemini qt))))).isEmpty
      · simp [query, stripTimings, hc, he]
      · simp [query, stripTimings, hc, he]
  · intro c1 c2 h
    rw [h]

/-- Witness for C7 (amended) at a concrete engine and two concrete clocks. -/
theorem c7_deterministic_modulo_clock_witness :
    stripTimings (query c7E (fun _ => 0) "hi" none) =
      stripTimings (query c7E (fun n => n) "hi" none) ∧
    query c7E (fun _ => 0) "hi" none = query c7E (fun _ => 0) "hi" none := by
  have h := c7_deterministic_modulo_clock c7E "hi" none
  exact ⟨h.1 (fun _ => 0) (fun n => n), h.2 (fun _ => 0) (fun _ => 0) rfl⟩

/-! ## C8: the conversation classifier fails open toward "query" -/

/-- C8: for every message list and every LLM behaviour, the classifier returns
only `"query"` or `"chat"`; it returns `"query"` whenever the provider call
raises, and whenever the returned text, after stripping and lower-casing, is
not exactly `"query"` or `"chat"`. -/
theorem c8_classifier_contract {V : Type} (g : LLM V) (messages : List Msg) :
    (classifyIntent g messages = "query" ∨ classifyIntent g messages = "chat") ∧
    (∀ e : String, g.generate (classifyPromptOf messages) = .error e →
      classifyIntent g messages = "query") ∧
    (∀ r : String, g.generate (classifyPromptOf messages) = .ok r →
      pyLower (pyStrip r) ≠ "query" → pyLower (pyStrip r) ≠ "chat" →
      classifyIntent g messages = "query") := by
  refine ⟨?_, ?_, ?_⟩
  · unfold classifyIntent
    cases hg : g.generate (classifyPromptOf messages) with
    | ok r =>
      by_cases h1 : pyLower (pyStrip r) = "query"
      · left; simp [h1]
      · by_cases h2 : pyLower (pyStrip r) = "chat"
        · right; simp [h1, h2]
        · left; simp [h1, h2]
    | error e => left; rfl
  · intro e he
    unfold classifyIntent
    rw [he]
  · intro r hr hq hc
    unfold classifyIntent
    rw [hr]
    simp [hq, hc]

/-- Witness for C8 at a concrete failing provider. -/
theorem c8_classifier_contract_witness :
    classifyIntent c8gErr [⟨"user", "hi", []⟩] = "query" :=
  (c8_classifier_contract c8gErr [⟨"user", "hi", []⟩]).2.1 "rate limited" rfl

/-! ## C9: a failed relevance batch keeps all candidates, truncated -/

/-- C9: when the LLM call for a relevance-filter batch fails, the batch result
is exactly every candidate of the batch with its content truncated to 500
characters — no candidate is dropped (the key list is preserved). -/
theorem c9_failed_batch_keeps_all {V : Type} (g : LLM V) (q : String)
    (cands : PyDict Cand) (e : String)
    (h : g.generateJsonFb (relevancePrompt q (dumpsJ 1 (relevancePayload cands))) =
      .error e) :
    checkRelevanceBatch g q cands =
      cands.map (fun kv => (kv.1, .str (pyTakeStr kv.2.content 500))) ∧
    dkeys (checkRelevanceBatch g q cands) = dkeys cands := by
  have h1 : checkRelevanceBatch g q cands = relevanceFallback cands := by
    unfold checkRelevanceBatch
    rw [h]
  refine ⟨h1, ?_⟩
  rw [h1]
  simp [relevanceFallback, dkeys, List.map_map, Function.comp]

/-- Witness for C9 at a concrete batch of two candidates. -/
theorem c9_failed_batch_keeps_all_witness :
    checkRelevanceBatch c9g "q" [("a", ⟨"1", "T", "body", 1⟩), ("b", ⟨"2", "U", "", 2⟩)] =
      [("a", .str "body"), ("b", .str "")] ∧
    dkeys (checkRelevanceBatch c9g "q"
      [("a", ⟨"1", "T", "body", 1⟩), ("b", ⟨"2", "U", "", 2⟩)]) = ["a", "b"] := by
  have := c9_failed_batch_keeps_all c9g "q"
    [("a", ⟨"1", "T", "body", 1⟩), ("b", ⟨"2", "U", "", 2⟩)] "parse failure" rfl
  exact ⟨by rw [this.1]; rfl, by rw [this.2]; rfl⟩

end QE
